import Mathlib

/-!
The TCP bridge of godfs (src/lib_common/bridge/tcp_bridge.go).

A shallow embedding of the framing engine of the bridge package: the operation
registry, the 18-byte header codec, the read-exact loop `ReadBytes`, the frame
reader `readHeadBytes` / `readMetaBytes`, the four bridge operations and the
envelope builder `NewRequest`.

Conventions of the embedding.

* A byte is a `Fin 256`; a Go `[]byte` is a `List Byte` (a nil slice is `[]`).
* `uint64` values are naturals; conversions write the `% 2^64` out.  Go `int`
  values that can be negative (`len` of `ReadBytes`, `metaSize` of
  `readMetaBytes`, operation codes) are integers.  A byte count reported by
  `Read` or `Write` is a natural number (the `io.Reader` contract has
  `0 <= n`).  The sum `read += l` is not wrapped: it stays below `2 * len`,
  and `len` is bounded by the capacity of an allocated buffer.
* `net.Conn` is an interface: the engine is parametrised by an arbitrary
  implementation `ConnImpl σ` (a deterministic state machine on `σ`).  Every
  method call the engine makes is recorded in the log of the handle,
  most recent first.
* Callbacks (body writers, handlers) are functions on the underlying
  connection state; their own I/O is not recorded in the engine log.
* A runtime panic and a loop that has not finished within the given fuel are
  explicit outcomes (`Exec.panic`, `Exec.fuelOut`).
-/

namespace Godfs

/-! ## Bytes and errors -/

abbrev Byte := Fin 256

/-- Go error values of the package, compared by identity.  `EOF` is `io.EOF`;
`other k` stands for any error value produced outside the package. -/
inductive GoError where
  | EOF
  | OPERATION_NOT_SUPPORT_ERROR
  | SEND_HEAD_BYTES_ERROR
  | SEND_BODY_BYTES_ERROR
  | READ_ERROR
  | other (k : Nat)
  deriving DecidableEq, Repr

/-- Outcome of running a piece of Go code that may panic or loop. -/
inductive Exec (α : Type) where
  | ret (a : α)
  | panic
  | fuelOut
  deriving DecidableEq, Repr

/-! ## Operation registry -/

def O_CONNECT : Int := 1
def O_RESPONSE : Int := 2

def HeaderSize : Nat := 18

/-- The entries `init` stores in `operationHeadMap`. -/
def operationHeadEntries : List (Int × List Byte) :=
  [(O_CONNECT, [1, 1]), (O_RESPONSE, [1, 2])]

/-- Map lookup `operationHeadMap[op]`; `none` is the nil slice of a missing key. -/
def operationHeadMap (op : Int) : Option (List Byte) :=
  operationHeadEntries.lookup op

/-- The loop of `retrieveOperation` over the entries in a given iteration order. -/
def retrieveOperationIn : List (Int × List Byte) → List Byte → Int
  | [], _ => 0
  | (k, v) :: rest, op => if op = v then k else retrieveOperationIn rest op

/-- Function `retrieveOperation`: the first key whose tag equals `op`, else 0. -/
def retrieveOperation (op : List Byte) : Int :=
  retrieveOperationIn operationHeadEntries op

/-! ## Header codec -/

/-- Conversion `byte(x)`: the low 8 bits. -/
def toByte (x : Nat) : Byte := ⟨x % 256, Nat.mod_lt _ (by decide)⟩

/-- Function `binary.BigEndian.PutUint64` on a fresh 8-byte slice. -/
def putUint64 (v : Nat) : List Byte :=
  [toByte (v >>> 56), toByte (v >>> 48), toByte (v >>> 40), toByte (v >>> 32),
   toByte (v >>> 24), toByte (v >>> 16), toByte (v >>> 8), toByte v]

/-- Function `convertLen2Bytes`. -/
def convertLen2Bytes (len : Nat) : List Byte :=
  putUint64 (len % 2 ^ 64)

/-- Function `binary.BigEndian.Uint64` on a slice of (at least) 8 bytes. -/
def uint64 (b : List Byte) : Nat :=
  (b.getD 7 0).val ||| (b.getD 6 0).val <<< 8 ||| (b.getD 5 0).val <<< 16
    ||| (b.getD 4 0).val <<< 24 ||| (b.getD 3 0).val <<< 32 ||| (b.getD 2 0).val <<< 40
    ||| (b.getD 1 0).val <<< 48 ||| (b.getD 0 0).val <<< 56

/-- Conversion `int(x)` of a `uint64` on a 64-bit platform. -/
def toInt (x : Nat) : Int :=
  if x % 2 ^ 64 < 2 ^ 63 then ((x % 2 ^ 64 : Nat) : Int) else ((x % 2 ^ 64 : Nat) : Int) - 2 ^ 64

/-! ## Connections -/

/-- What one `Read(p)` call gives back: the count it reports, the bytes it
stored at the start of `p`, and the error it reports. -/
structure ReadResult where
  n : Nat
  data : List Byte
  err : Option GoError
  deriving DecidableEq, Repr

/-- An implementation of the connection interface as a state machine. -/
structure ConnImpl (σ : Type) where
  read : σ → Nat → ReadResult × σ
  write : σ → List Byte → (Nat × Option GoError) × σ
  close : σ → Option GoError × σ

/-- The envelope `Meta`. -/
structure Meta where
  Operation : Int
  metaLength : Nat
  BodyLength : Nat
  MetaBody : List Byte
  Err : Option GoError
  deriving DecidableEq, Repr

/-- A call made by the engine on a connection handle. -/
inductive Event where
  | read (size : Nat) (n : Nat) (err : Option GoError)
  | write (buf : List Byte)
  | close
  | bodyWriter
  | handler (m : Meta)
  deriving DecidableEq, Repr

/-- A live connection handle: the state of the implementation and the log of
the calls made so far (most recent first). -/
structure Conn (σ : Type) where
  st : σ
  log : List Event

/-- Method call `conn.Read(p)` with `len(p) = size`. -/
def Conn.Read {σ : Type} (impl : ConnImpl σ) (c : Conn σ) (size : Nat) : ReadResult × Conn σ :=
  let r := impl.read c.st size
  (r.1, { st := r.2, log := Event.read size r.1.n r.1.err :: c.log })

/-- Method call `conn.Write(buf)`. -/
def Conn.Write {σ : Type} (impl : ConnImpl σ) (c : Conn σ) (buf : List Byte) :
    (Nat × Option GoError) × Conn σ :=
  let r := impl.write c.st buf
  (r.1, { st := r.2, log := Event.write buf :: c.log })

/-- Method call `conn.Close()`. -/
def Conn.Close {σ : Type} (impl : ConnImpl σ) (c : Conn σ) : Option GoError × Conn σ :=
  let r := impl.close c.st
  (r.1, { st := r.2, log := Event.close :: c.log })

/-- Function `close`: nil-safe close of a handle (`none` is the nil handle). -/
def close {σ : Type} (impl : ConnImpl σ) (closer : Option (Conn σ)) :
    Option GoError × Option (Conn σ) :=
  match closer with
  | some c => ((Conn.Close impl c).1, some (Conn.Close impl c).2)
  | none => (none, none)

/-- The handle after `close(conn)` at a call site where `conn` is live. -/
def closeLive {σ : Type} (impl : ConnImpl σ) (c : Conn σ) : Conn σ :=
  ((close impl (some c)).2).getD c

/-! ## ReadBytes -/

/-- Slice expression `b[i:j]` (within bounds). -/
def slice (b : List Byte) (i j : Nat) : List Byte := (b.drop i).take (j - i)

/-- Effect on `buff` of a reader storing `data` into the slice `buff[read:len]`. -/
def store (buff : List Byte) (read len : Nat) (data : List Byte) : List Byte :=
  buff.take read ++ data.take (len - read) ++ buff.drop (read + (data.take (len - read)).length)

/-- What one iteration of the loop of `ReadBytes` does. -/
inductive Iter (σ : Type) where
  | brk
  | fail (buff : List Byte) (conn : Conn σ)
  | next (read : Nat) (buff : List Byte) (conn : Conn σ)
  | panic

/-- One iteration of the loop of `ReadBytes`, from `read` accumulated bytes. -/
def ReadBytes.body {σ : Type} (impl : ConnImpl σ) (len : Int) (read : Nat)
    (buff : List Byte) (conn : Conn σ) : Iter σ :=
  if len ≤ (read : Int) then Iter.brk
  else if buff.length < len.toNat then Iter.panic
  else
    let r := Conn.Read impl conn (len.toNat - read)
    let buff1 := store buff read len.toNat r.1.data
    if r.1.n = 0 ∨ r.1.err = some GoError.EOF then
      Iter.fail buff1 (closeLive impl r.2)
    else if (r.1.n : Int) ≤ len then Iter.next (read + r.1.n) buff1 r.2
    else Iter.next read buff1 r.2

/-- The loop of `ReadBytes`, cut off after `fuel` iterations. -/
def ReadBytes.loop {σ : Type} (impl : ConnImpl σ) (len : Int) :
    Nat → Nat → List Byte → Conn σ → Exec (Int × Option GoError) × List Byte × Conn σ
  | 0, _, buff, conn => (Exec.fuelOut, buff, conn)
  | fuel + 1, read, buff, conn =>
    match ReadBytes.body impl len read buff conn with
    | Iter.brk => (Exec.ret (len, none), buff, conn)
    | Iter.fail b c => (Exec.ret (0, some GoError.READ_ERROR), b, c)
    | Iter.next r b c => ReadBytes.loop impl len fuel r b c
    | Iter.panic => (Exec.panic, buff, conn)

/-- Function `ReadBytes(buff, len, conn)`: the returned pair, the buffer and
the connection afterwards. -/
def ReadBytes {σ : Type} (impl : ConnImpl σ) (fuel : Nat) (buff : List Byte) (len : Int)
    (conn : Conn σ) : Exec (Int × Option GoError) × List Byte × Conn σ :=
  ReadBytes.loop impl len fuel 0 buff conn

/-! ## Frame reader -/

/-- Function `readMetaBytes(metaSize, reader)`: `make([]byte, metaSize)` panics
on a negative size.  (The Go runtime also refuses a size above its allocation
limit, a platform constant, `2^48` bytes on 64-bit Linux; memory limits are
not part of the embedding, which goes on for such a size as if the buffer had
been made.  Results below that need a successful `make` are about metadata
that fits in memory.) -/
def readMetaBytes {σ : Type} (impl : ConnImpl σ) (fuel : Nat) (metaSize : Int)
    (reader : Conn σ) : Exec (List Byte × Option GoError) × Conn σ :=
  if metaSize < 0 then (Exec.panic, reader)
  else
    let tmp : List Byte := List.replicate metaSize.toNat 0
    match ReadBytes impl fuel tmp metaSize reader with
    | (Exec.ret (len, e), tmp1, r1) =>
      if e ≠ none ∧ e ≠ some GoError.EOF then (Exec.ret ([], e), r1)
      else if (e = none ∨ e = some GoError.EOF) ∧ len = metaSize then (Exec.ret (tmp1, none), r1)
      else (Exec.ret ([], some GoError.READ_ERROR), r1)
    | (Exec.panic, _, r1) => (Exec.panic, r1)
    | (Exec.fuelOut, _, r1) => (Exec.fuelOut, r1)

/-- The tuple `readHeadBytes` returns: operation, metaSize, bodySize,
metaBodyBytes, error. -/
structure Head where
  operation : Int
  metaSize : Nat
  bodySize : Nat
  metaBodyBytes : List Byte
  err : Option GoError
  deriving DecidableEq, Repr

/-- Function `readHeadBytes(reader)`. -/
def readHeadBytes {σ : Type} (impl : ConnImpl σ) (fuel : Nat) (reader : Conn σ) :
    Exec Head × Conn σ :=
  let headerBytes : List Byte := List.replicate HeaderSize 0
  match ReadBytes impl fuel headerBytes (HeaderSize : Int) reader with
  | (Exec.ret (len, e), hb, r1) =>
    if e = none ∧ len = (HeaderSize : Int) then
      let operation := retrieveOperation (slice hb 0 2)
      let bMetaSize := slice hb 2 10
      let bBodySize := slice hb 10 18
      let metaSize := uint64 bMetaSize
      let bodySize := uint64 bBodySize
      match readMetaBytes impl fuel (toInt metaSize) r1 with
      | (Exec.ret (metaBodyBytes, e1), r2) =>
        if e1 ≠ none then (Exec.ret ⟨0, 0, 0, [], e1⟩, r2)
        else (Exec.ret ⟨operation, metaSize, bodySize, metaBodyBytes, none⟩, r2)
      | (Exec.panic, r2) => (Exec.panic, r2)
      | (Exec.fuelOut, r2) => (Exec.fuelOut, r2)
    else (Exec.ret ⟨0, 0, 0, [], some GoError.READ_ERROR⟩, r1)
  | (Exec.panic, _, r1) => (Exec.panic, r1)
  | (Exec.fuelOut, _, r1) => (Exec.fuelOut, r1)

/-! ## Bridge -/

/-- The struct `Bridge`. -/
structure Bridge (σ : Type) where
  connection : Conn σ

/-- Function `NewBridge`. -/
def NewBridge {σ : Type} (conn : Conn σ) : Bridge σ := { connection := conn }

/-- A caller-supplied callback running against the raw connection. -/
abbrev BodyWriter (σ : Type) := σ → Option GoError × σ

/-- A caller-supplied handler receiving the envelope and the raw connection. -/
abbrev Handler (σ : Type) := Meta → σ → Option GoError × σ

/-- Invocation of `bodyWriterHandler(bridge.connection)`. -/
def callBodyWriter {σ : Type} (h : BodyWriter σ) (c : Conn σ) : Option GoError × Conn σ :=
  ((h c.st).1, { st := (h c.st).2, log := Event.bodyWriter :: c.log })

/-- Invocation of `handler(meta, bridge.connection)`. -/
def callHandler {σ : Type} (h : Handler σ) (m : Meta) (c : Conn σ) : Option GoError × Conn σ :=
  ((h m c.st).1, { st := (h m c.st).2, log := Event.handler m :: c.log })

/-- The contents of `headerBuff` in `SendRequest` when it is written. -/
def SendRequest.headerBuff (request : Meta) : List Byte :=
  let metaLenBytes := convertLen2Bytes request.metaLength
  let bodyLenBytes := convertLen2Bytes request.BodyLength
  (operationHeadMap request.Operation).getD [] ++ metaLenBytes ++ bodyLenBytes ++ request.MetaBody

/-- The part of `SendRequest` and `SendResponse` after `headerBuff` is filled. -/
def sendBuff {σ : Type} (impl : ConnImpl σ) (headerBuff : List Byte) (bodyLength : Nat)
    (bodyWriterHandler : BodyWriter σ) (bridge : Bridge σ) : Option GoError × Bridge σ :=
  let w := Conn.Write impl bridge.connection headerBuff
  if w.1.2 ≠ none then (w.1.2, { connection := closeLive impl w.2 })
  else if w.1.1 ≠ headerBuff.length then
    (some GoError.SEND_HEAD_BYTES_ERROR, { connection := closeLive impl w.2 })
  else if bodyLength > 0 then
    let b := callBodyWriter bodyWriterHandler w.2
    if b.1 ≠ none then (b.1, { connection := closeLive impl b.2 })
    else (none, { connection := b.2 })
  else (none, { connection := w.2 })

/-- Method `Bridge.SendRequest`. -/
def Bridge.SendRequest {σ : Type} (impl : ConnImpl σ) (bridge : Bridge σ) (request : Meta)
    (bodyWriterHandler : BodyWriter σ) : Option GoError × Bridge σ :=
  sendBuff impl (SendRequest.headerBuff request) request.BodyLength bodyWriterHandler bridge

/-- The contents of `headerBuff` in `SendResponse` when it is written. -/
def SendResponse.headerBuff (response : Meta) : List Byte :=
  let metaLenBytes := convertLen2Bytes response.metaLength
  let bodyLenBytes := convertLen2Bytes response.BodyLength
  (operationHeadMap response.Operation).getD [] ++ metaLenBytes ++ bodyLenBytes

/-- Method `Bridge.SendResponse`. -/
def Bridge.SendResponse {σ : Type} (impl : ConnImpl σ) (bridge : Bridge σ) (response : Meta)
    (bodyWriterHandler : BodyWriter σ) : Option GoError × Bridge σ :=
  sendBuff impl (SendResponse.headerBuff response) response.BodyLength bodyWriterHandler bridge

/-- Method `Bridge.ReceiveResponse`. -/
def Bridge.ReceiveResponse {σ : Type} (impl : ConnImpl σ) (fuel : Nat) (bridge : Bridge σ)
    (responseHandler : Handler σ) : Exec (Option GoError) × Bridge σ :=
  match readHeadBytes impl fuel bridge.connection with
  | (Exec.ret h, c1) =>
    if h.err ≠ none then (Exec.ret h.err, { connection := c1 })
    else
      let response : Meta :=
        { Operation := h.operation, metaLength := h.metaSize, BodyLength := h.bodySize,
          MetaBody := h.metaBodyBytes, Err := none }
      let r := callHandler responseHandler response c1
      (Exec.ret r.1, { connection := r.2 })
  | (Exec.panic, c1) => (Exec.panic, { connection := c1 })
  | (Exec.fuelOut, c1) => (Exec.fuelOut, { connection := c1 })

/-- Method `Bridge.ReceiveRequest`: the metaSize of the head is dropped, so the
envelope keeps the zero value of `metaLength`. -/
def Bridge.ReceiveRequest {σ : Type} (impl : ConnImpl σ) (fuel : Nat) (bridge : Bridge σ)
    (requestHandler : Handler σ) : Exec (Option GoError) × Bridge σ :=
  match readHeadBytes impl fuel bridge.connection with
  | (Exec.ret h, c1) =>
    if h.err ≠ none then (Exec.ret h.err, { connection := c1 })
    else
      let request : Meta :=
        { Operation := h.operation, metaLength := 0, BodyLength := h.bodySize,
          MetaBody := h.metaBodyBytes, Err := none }
      let r := callHandler requestHandler request c1
      (Exec.ret r.1, { connection := r.2 })
  | (Exec.panic, c1) => (Exec.panic, { connection := c1 })
  | (Exec.fuelOut, c1) => (Exec.fuelOut, { connection := c1 })

/-! ## Envelope builder -/

/-- Function `NewRequest`.  The serializer `json.Marshal` is a parameter: a
state machine on `τ`, so that a call to it is visible in the state.  The
metadata is taken by value (a nil `meta` pointer is outside the model). -/
def NewRequest {α τ : Type} (marshal : α → τ → Except GoError (List Byte) × τ)
    (operation : Int) (v : α) (bodyLen : Nat) (t : τ) : Except GoError Meta × τ :=
  if operationHeadMap operation = none then (Except.error GoError.OPERATION_NOT_SUPPORT_ERROR, t)
  else
    match marshal v t with
    | (Except.error e, t1) => (Except.error e, t1)
    | (Except.ok metaBodyBytes, t1) =>
      let metaLen := metaBodyBytes.length % 2 ^ 64
      (Except.ok { Operation := operation, metaLength := metaLen, BodyLength := bodyLen,
                   MetaBody := metaBodyBytes, Err := none }, t1)

/-! ## A concrete connection: an in-order byte pipe -/

/-- A run of bytes that one read can deliver, with the error reported by the
read that delivers its last byte. -/
structure Chunk where
  bytes : List Byte
  err : Option GoError
  deriving DecidableEq, Repr

/-- A pipe: what the peer has sent (in the chunks the transport delivers it
in), everything written locally, and the number of `Close` calls. -/
structure Pipe where
  incoming : List Chunk
  outgoing : List Byte
  closes : Nat
  deriving DecidableEq, Repr

/-- All bytes still to be read from a pipe. -/
def Pipe.content (p : Pipe) : List Byte :=
  (p.incoming.map Chunk.bytes).flatten

/-- Reading from a pipe: end-of-stream when nothing is left, else the head
chunk, or as much of it as fits the slice. -/
def Pipe.read (p : Pipe) (size : Nat) : ReadResult × Pipe :=
  match p.incoming with
  | [] => ({ n := 0, data := [], err := some GoError.EOF }, p)
  | c :: rest =>
    if c.bytes.length ≤ size then
      ({ n := c.bytes.length, data := c.bytes, err := c.err }, { p with incoming := rest })
    else
      ({ n := size, data := c.bytes.take size, err := none },
       { p with incoming := { bytes := c.bytes.drop size, err := c.err } :: rest })

/-- The pipe as a connection: writes are complete and never fail. -/
def pipe : ConnImpl Pipe where
  read := Pipe.read
  write := fun p buf => ((buf.length, none), { p with outgoing := p.outgoing ++ buf })
  close := fun p => (none, { p with closes := p.closes + 1 })

/-- A pipe holding the given incoming chunks. -/
def Pipe.ofChunks (cs : List Chunk) : Pipe := { incoming := cs, outgoing := [], closes := 0 }

/-- A chunk of bytes delivered without error. -/
def Chunk.ok (bs : List Byte) : Chunk := { bytes := bs, err := none }

/-- A body writer that writes `body` to the connection in one `Write`. -/
def writeBody {σ : Type} (impl : ConnImpl σ) (body : List Byte) : BodyWriter σ :=
  fun s => ((impl.write s body).1.2, (impl.write s body).2)

/-- Number of `Close` calls in a log. -/
def closeCalls (log : List Event) : Nat := log.count Event.close

/-- Number of `Read` calls in a log. -/
def readCalls : List Event → Nat
  | [] => 0
  | Event.read _ _ _ :: rest => readCalls rest + 1
  | _ :: rest => readCalls rest

/-- The envelopes handed to handlers in a log, most recent first. -/
def handlerCalls : List Event → List Meta
  | [] => []
  | Event.handler m :: rest => m :: handlerCalls rest
  | _ :: rest => handlerCalls rest

/-- The buffers passed to `Write` in a log, most recent first. -/
def writeCalls : List Event → List (List Byte)
  | [] => []
  | Event.write b :: rest => b :: writeCalls rest
  | _ :: rest => writeCalls rest

/-- Number of body-writer invocations in a log. -/
def bodyWriterCalls (log : List Event) : Nat := log.count Event.bodyWriter

/-- The wire layout in the words of the specification: a value as 8 bytes,
most significant first (byte `i` is the `7 - i`-th base-256 digit). -/
def bigEndian8 (v : Nat) : List Byte :=
  (List.range 8).map (fun i => toByte (v / 256 ^ (7 - i)))

/-- The registry tag of a registered operation, as the specification lists it. -/
def registryTag (op : Int) : List Byte :=
  if op = O_CONNECT then [1, 1] else [1, 2]

/-- The next `k` bytes of a chunked stream are delivered by reads that each
return at least one byte and report no error.  (A chunk longer than what is
still asked for is cut by the read, which then reports no error.) -/
def Delivers : List Chunk → Nat → Prop
  | _, 0 => True
  | [], _ + 1 => False
  | c :: cs, k + 1 =>
    c.bytes ≠ [] ∧ (c.bytes.length ≤ k + 1 → c.err = none) ∧ Delivers cs (k + 1 - c.bytes.length)

/-- Before `k` more bytes have been delivered by a chunked stream, some read
returns zero bytes or signals end-of-stream (the stream ends, holds an empty
chunk, or a chunk that fits carries `io.EOF`). -/
def Starves : List Chunk → Nat → Prop
  | _, 0 => False
  | [], _ + 1 => True
  | c :: cs, k + 1 =>
    c.bytes = [] ∨ (c.bytes.length ≤ k + 1 ∧ c.err = some GoError.EOF)
      ∨ (c.bytes.length < k + 1 ∧ Starves cs (k + 1 - c.bytes.length))

/-- A read event that returned zero bytes or signalled end-of-stream. -/
def Event.isFailedRead : Event → Prop
  | Event.read _ n e => n = 0 ∨ e = some GoError.EOF
  | _ => False

/-- A read event, of any result. -/
def Event.isRead : Event → Prop
  | Event.read _ _ _ => True
  | _ => False

/-- A pipe whose `Close` reports an error once the pipe is closed, the way the
connections of package `net` do ("use of closed network connection"). -/
def strictPipe : ConnImpl Pipe where
  read := Pipe.read
  write := fun p buf => ((buf.length, none), { p with outgoing := p.outgoing ++ buf })
  close := fun p =>
    (if p.closes = 0 then none else some (GoError.other 1), { p with closes := p.closes + 1 })

/-- A handler that reads `k m` bytes of the body with `ReadBytes` and passes
them on by writing them to the connection; when the read does not return nil
it returns an error and passes nothing on. -/
def echoHandler (fuel : Nat) (k : Meta → Nat) : Handler Pipe := fun m s =>
  match ReadBytes pipe fuel (List.replicate (k m) 0) ((k m : Nat) : Int) ⟨s, []⟩ with
  | (Exec.ret (_, none), buf, c) => ((pipe.write c.st buf).1.2, (pipe.write c.st buf).2)
  | (Exec.ret (_, some e), _, c) => (some e, c.st)
  | (Exec.panic, _, c) => (some (GoError.other 0), c.st)
  | (Exec.fuelOut, _, c) => (some (GoError.other 0), c.st)

/-- A frame to send: an envelope and the body its writer writes.  It is
well-formed when the operation is registered, metaLength is the length of
MetaBody, BodyLength is the length of the body, and the lengths are those of
Go byte slices. -/
def validFrame (f : Meta × List Byte) : Prop :=
  (f.1.Operation = O_CONNECT ∨ f.1.Operation = O_RESPONSE)
  ∧ f.1.metaLength = f.1.MetaBody.length ∧ f.1.MetaBody.length < 2 ^ 63
  ∧ f.1.BodyLength = f.2.length ∧ f.2.length < 2 ^ 63

/-- A client that sends frames back to back with `SendRequest`, each with a
body writer that writes the body, and stops at the first error. -/
def sendFrames : List (Meta × List Byte) → Bridge Pipe → Option GoError × Bridge Pipe
  | [], b => (none, b)
  | f :: fs, b =>
    match Bridge.SendRequest pipe b f.1 (writeBody pipe f.2) with
    | (none, b1) => sendFrames fs b1
    | (some e, b1) => (some e, b1)

/-- A server that calls `ReceiveRequest` `k` times in a row, with a handler
that consumes exactly BodyLength bytes and passes them on. -/
def serve (fuel : Nat) : Nat → Bridge Pipe → Bridge Pipe
  | 0, b => b
  | k + 1, b =>
    serve fuel k (Bridge.ReceiveRequest pipe fuel b (echoHandler fuel Meta.BodyLength)).2

/-- The bytes of one frame on the wire: header, metadata, body. -/
def frameBytes (f : Meta × List Byte) : List Byte :=
  SendRequest.headerBuff f.1 ++ f.2

/-- What a handler is told about a frame: Operation, BodyLength, MetaBody. -/
def envelopeOf (m : Meta) : Int × Nat × List Byte := (m.Operation, m.BodyLength, m.MetaBody)

/-! ## Codec lemmas -/

theorem convertLen2Bytes_eq_bigEndian8 (v : Nat) : convertLen2Bytes v = bigEndian8 v := by
  simp only [convertLen2Bytes, putUint64, bigEndian8, List.range, List.range.loop, List.map,
    toByte, Nat.shiftRight_eq_div_pow]
  norm_num
  refine ⟨?_, ?_, ?_, ?_, ?_, ?_, ?_⟩ <;> omega

theorem bigEndian8_length (v : Nat) : (bigEndian8 v).length = 8 := by
  simp [bigEndian8]

theorem convertLen2Bytes_length (v : Nat) : (convertLen2Bytes v).length = 8 := by
  simp [convertLen2Bytes, putUint64]

theorem operationHeadMap_connect : operationHeadMap O_CONNECT = some [1, 1] := by decide

theorem operationHeadMap_response : operationHeadMap O_RESPONSE = some [1, 2] := by decide

theorem operationHeadMap_unregistered (op : Int) (h1 : op ≠ O_CONNECT) (h2 : op ≠ O_RESPONSE) :
    operationHeadMap op = none := by
  have h1b : (op == O_CONNECT) = false := by simpa using h1
  have h2b : (op == O_RESPONSE) = false := by simpa using h2
  simp [operationHeadMap, operationHeadEntries, List.lookup, h1b, h2b]

theorem operationHeadMap_eq_none_iff (op : Int) :
    operationHeadMap op = none ↔ (op ≠ O_CONNECT ∧ op ≠ O_RESPONSE) := by
  constructor
  · intro h
    constructor
    · rintro rfl; rw [operationHeadMap_connect] at h; exact absurd h (by simp)
    · rintro rfl; rw [operationHeadMap_response] at h; exact absurd h (by simp)
  · rintro ⟨h1, h2⟩; exact operationHeadMap_unregistered op h1 h2

/-! ## Connection lemmas -/

theorem closeLive_eq {σ : Type} (impl : ConnImpl σ) (c : Conn σ) :
    closeLive impl c = { st := (impl.close c.st).2, log := Event.close :: c.log } := by
  simp [closeLive, close, Conn.Close]

@[simp] theorem closeLive_log {σ : Type} (impl : ConnImpl σ) (c : Conn σ) :
    (closeLive impl c).log = Event.close :: c.log := by
  simp [closeLive_eq]

@[simp] theorem closeLive_st {σ : Type} (impl : ConnImpl σ) (c : Conn σ) :
    (closeLive impl c).st = (impl.close c.st).2 := by
  simp [closeLive_eq]

@[simp] theorem Conn.Write_log {σ : Type} (impl : ConnImpl σ) (c : Conn σ) (buf : List Byte) :
    (Conn.Write impl c buf).2.log = Event.write buf :: c.log := rfl

@[simp] theorem Conn.Write_st {σ : Type} (impl : ConnImpl σ) (c : Conn σ) (buf : List Byte) :
    (Conn.Write impl c buf).2.st = (impl.write c.st buf).2 := rfl

@[simp] theorem Conn.Write_res {σ : Type} (impl : ConnImpl σ) (c : Conn σ) (buf : List Byte) :
    (Conn.Write impl c buf).1 = (impl.write c.st buf).1 := rfl

@[simp] theorem callBodyWriter_log {σ : Type} (h : BodyWriter σ) (c : Conn σ) :
    (callBodyWriter h c).2.log = Event.bodyWriter :: c.log := rfl

/-- The log after the common tail of the two send operations: the one `Write`
of the header buffer, then at most a body-writer call and a close. -/
theorem sendBuff_log {σ : Type} (impl : ConnImpl σ) (headerBuff : List Byte) (bodyLength : Nat)
    (bodyWriterHandler : BodyWriter σ) (bridge : Bridge σ) :
    ∃ later : List Event,
      (sendBuff impl headerBuff bodyLength bodyWriterHandler bridge).2.connection.log
        = later ++ Event.write headerBuff :: bridge.connection.log
      ∧ writeCalls later = [] := by
  unfold sendBuff
  simp only []
  split
  · exact ⟨[Event.close], by simp, rfl⟩
  · split
    · exact ⟨[Event.close], by simp, rfl⟩
    · split
      · split
        · exact ⟨[Event.close, Event.bodyWriter], by simp, rfl⟩
        · exact ⟨[Event.bodyWriter], by simp, rfl⟩
      · exact ⟨[], by simp, rfl⟩

theorem SendRequest_headerBuff_registered (request : Meta)
    (hop : request.Operation = O_CONNECT ∨ request.Operation = O_RESPONSE) :
    SendRequest.headerBuff request
      = registryTag request.Operation ++ bigEndian8 request.metaLength
          ++ bigEndian8 request.BodyLength ++ request.MetaBody := by
  rcases hop with h | h
  · simp [SendRequest.headerBuff, h, operationHeadMap_connect, registryTag,
      convertLen2Bytes_eq_bigEndian8]
  · have : O_RESPONSE ≠ O_CONNECT := by decide
    simp [SendRequest.headerBuff, h, operationHeadMap_response, registryTag,
      convertLen2Bytes_eq_bigEndian8, this]

theorem SendRequest_headerBuff_unregistered (request : Meta)
    (h1 : request.Operation ≠ O_CONNECT) (h2 : request.Operation ≠ O_RESPONSE) :
    SendRequest.headerBuff request
      = bigEndian8 request.metaLength ++ bigEndian8 request.BodyLength ++ request.MetaBody := by
  simp [SendRequest.headerBuff, operationHeadMap_unregistered _ h1 h2,
    convertLen2Bytes_eq_bigEndian8]

theorem SendResponse_headerBuff_unregistered (response : Meta)
    (h1 : response.Operation ≠ O_CONNECT) (h2 : response.Operation ≠ O_RESPONSE) :
    SendResponse.headerBuff response
      = bigEndian8 response.metaLength ++ bigEndian8 response.BodyLength := by
  simp [SendResponse.headerBuff, operationHeadMap_unregistered _ h1 h2,
    convertLen2Bytes_eq_bigEndian8]

/-- When the connection takes the whole header buffer and the body writer (if
it is called) reports no error, the send returns nil and closes nothing. -/
theorem sendBuff_ok {σ : Type} (impl : ConnImpl σ) (headerBuff : List Byte) (bodyLength : Nat)
    (bodyWriterHandler : BodyWriter σ) (bridge : Bridge σ)
    (hw : (impl.write bridge.connection.st headerBuff).1 = (headerBuff.length, none))
    (hb : 0 < bodyLength →
      (bodyWriterHandler (impl.write bridge.connection.st headerBuff).2).1 = none) :
    (sendBuff impl headerBuff bodyLength bodyWriterHandler bridge).1 = none
    ∧ closeCalls (sendBuff impl headerBuff bodyLength bodyWriterHandler bridge).2.connection.log
        = closeCalls bridge.connection.log := by
  unfold sendBuff
  simp only [Conn.Write_res, hw, ne_eq, not_true_eq_false, if_false]
  by_cases hpos : bodyLength > 0
  · have hb1 := hb hpos
    simp [hpos, callBodyWriter, hb1, closeCalls, Conn.Write]
  · simp [hpos, closeCalls]

/-! ## The read loop on an arbitrary connection -/

@[simp] theorem Conn.Read_log {σ : Type} (impl : ConnImpl σ) (c : Conn σ) (size : Nat) :
    (Conn.Read impl c size).2.log
      = Event.read size (impl.read c.st size).1.n (impl.read c.st size).1.err :: c.log := rfl

@[simp] theorem Conn.Read_st {σ : Type} (impl : ConnImpl σ) (c : Conn σ) (size : Nat) :
    (Conn.Read impl c size).2.st = (impl.read c.st size).2 := rfl

@[simp] theorem Conn.Read_res {σ : Type} (impl : ConnImpl σ) (c : Conn σ) (size : Nat) :
    (Conn.Read impl c size).1 = (impl.read c.st size).1 := rfl

/-- An iteration that goes on has made one `Read` call. -/
theorem ReadBytes.body_next_log {σ : Type} (impl : ConnImpl σ) (len : Int) (read : Nat)
    (buff : List Byte) (conn : Conn σ) (r : Nat) (b : List Byte) (c : Conn σ)
    (h : ReadBytes.body impl len read buff conn = Iter.next r b c) :
    readCalls c.log = readCalls conn.log + 1 ∧ ¬ len ≤ (read : Int) := by
  unfold ReadBytes.body at h
  split at h
  · exact absurd h (by simp)
  · split at h
    · exact absurd h (by simp)
    · rename_i hlen _
      simp only [] at h
      split at h
      · exact absurd h (by simp)
      · split at h <;>
        · simp only [Iter.next.injEq] at h
          obtain ⟨_, _, rfl⟩ := h
          exact ⟨by simp [readCalls], hlen⟩

/-- An iteration that fails has made one `Read` call and then closed. -/
theorem ReadBytes.body_fail_log {σ : Type} (impl : ConnImpl σ) (len : Int) (read : Nat)
    (buff : List Byte) (conn : Conn σ) (b : List Byte) (c : Conn σ)
    (h : ReadBytes.body impl len read buff conn = Iter.fail b c) :
    ∃ size n e, c.log = Event.close :: Event.read size n e :: conn.log ∧ ¬ len ≤ (read : Int) := by
  unfold ReadBytes.body at h
  split at h
  · exact absurd h (by simp)
  · split at h
    · exact absurd h (by simp)
    · rename_i hlen _
      simp only [] at h
      split at h
      · simp only [Iter.fail.injEq] at h
        obtain ⟨_, rfl⟩ := h
        exact ⟨len.toNat - read, (impl.read conn.st (len.toNat - read)).1.n,
          (impl.read conn.st (len.toNat - read)).1.err, by rw [closeLive_log, Conn.Read_log], hlen⟩
      · split at h <;> exact absurd h (by simp)

/-- With a reader that never reports more than the slice it was given, an
iteration that goes on has strictly more accumulated bytes. -/
theorem ReadBytes.body_next_lt {σ : Type} (impl : ConnImpl σ)
    (hrd : ∀ s size, (impl.read s size).1.n ≤ size) (len : Int) (read : Nat)
    (buff : List Byte) (conn : Conn σ) (r : Nat) (b : List Byte) (c : Conn σ)
    (h : ReadBytes.body impl len read buff conn = Iter.next r b c) :
    read < r := by
  unfold ReadBytes.body at h
  split at h
  · exact absurd h (by simp)
  · split at h
    · exact absurd h (by simp)
    · rename_i hlen _
      simp only [] at h
      split at h
      · exact absurd h (by simp)
      · rename_i hz
        have hle := hrd conn.st (len.toNat - read)
        split at h
        · simp only [Iter.next.injEq] at h
          obtain ⟨rfl, _, _⟩ := h
          simp only [Conn.Read_res, not_or] at hz ⊢
          omega
        · rename_i hbig
          simp only [Conn.Read_res] at hbig
          omega

/-- Termination of the loop: with such a reader, from `read` accumulated
bytes the loop ends within `len - read + 1` iterations and makes at most
`len - read` calls to `Read`. -/
theorem ReadBytes.loop_terminates {σ : Type} (impl : ConnImpl σ)
    (hrd : ∀ s size, (impl.read s size).1.n ≤ size) (len : Int) :
    ∀ (fuel read : Nat) (buff : List Byte) (conn : Conn σ), len.toNat - read < fuel →
      (ReadBytes.loop impl len fuel read buff conn).1 ≠ Exec.fuelOut
      ∧ readCalls (ReadBytes.loop impl len fuel read buff conn).2.2.log
          ≤ readCalls conn.log + (len.toNat - read) := by
  intro fuel
  induction fuel with
  | zero => intro read buff conn h; omega
  | succ fuel ih =>
    intro read buff conn hf
    unfold ReadBytes.loop
    cases hb : ReadBytes.body impl len read buff conn with
    | brk => simp
    | panic => simp
    | fail b c =>
      obtain ⟨size, n, e, hlog, hlt⟩ := ReadBytes.body_fail_log impl len read buff conn b c hb
      simp only [ne_eq, reduceCtorEq, not_false_eq_true, hlog, true_and]
      simp only [readCalls]
      omega
    | next r b c =>
      have hlt := ReadBytes.body_next_lt impl hrd len read buff conn r b c hb
      obtain ⟨hlog, hnle⟩ := ReadBytes.body_next_log impl len read buff conn r b c hb
      have := ih r b c (by omega)
      simp only []
      refine ⟨this.1, ?_⟩
      omega

/-- An iteration that goes on has made one `Read` call, which returned at
least one byte and did not signal end-of-stream. -/
theorem ReadBytes.body_next_ev {σ : Type} (impl : ConnImpl σ) (len : Int) (read : Nat)
    (buff : List Byte) (conn : Conn σ) (r : Nat) (b : List Byte) (c : Conn σ)
    (h : ReadBytes.body impl len read buff conn = Iter.next r b c) :
    ∃ ev, c.log = ev :: conn.log ∧ ev.isRead ∧ ¬ ev.isFailedRead := by
  unfold ReadBytes.body at h
  split at h
  · exact absurd h (by simp)
  · split at h
    · exact absurd h (by simp)
    · simp only [] at h
      split at h
      · exact absurd h (by simp)
      · rename_i hz
        split at h <;>
        · simp only [Iter.next.injEq] at h
          obtain ⟨_, _, rfl⟩ := h
          exact ⟨_, Conn.Read_log impl conn _, trivial, hz⟩

/-- An iteration that fails has made one `Read` call, which returned zero
bytes or signalled end-of-stream, and then called `Close`. -/
theorem ReadBytes.body_fail_ev {σ : Type} (impl : ConnImpl σ) (len : Int) (read : Nat)
    (buff : List Byte) (conn : Conn σ) (b : List Byte) (c : Conn σ)
    (h : ReadBytes.body impl len read buff conn = Iter.fail b c) :
    ∃ ev, c.log = Event.close :: ev :: conn.log ∧ ev.isFailedRead := by
  unfold ReadBytes.body at h
  split at h
  · exact absurd h (by simp)
  · split at h
    · exact absurd h (by simp)
    · simp only [] at h
      split at h
      · rename_i hz
        simp only [Iter.fail.injEq] at h
        obtain ⟨_, rfl⟩ := h
        exact ⟨Event.read (len.toNat - read) (impl.read conn.st (len.toNat - read)).1.n
          (impl.read conn.st (len.toNat - read)).1.err,
          by rw [closeLive_log, Conn.Read_log], hz⟩
      · split at h <;> exact absurd h (by simp)

/-- The trace of the loop of `ReadBytes` on any connection: it only adds to the
log; either it returns `(0, READ_ERROR)` and what it added is a run of good
reads, then a failed read, then `Close`; or it does not return that and what
it added is a run of good reads. -/
theorem ReadBytes.loop_trace {σ : Type} (impl : ConnImpl σ) (len : Int) :
    ∀ (fuel read : Nat) (buff : List Byte) (conn : Conn σ),
      ∃ new : List Event,
        (ReadBytes.loop impl len fuel read buff conn).2.2.log = new ++ conn.log
        ∧ (((ReadBytes.loop impl len fuel read buff conn).1
              = Exec.ret (0, some GoError.READ_ERROR)
            ∧ ∃ ev rest, new = Event.close :: ev :: rest ∧ ev.isFailedRead
                ∧ ∀ e ∈ rest, e.isRead ∧ ¬ e.isFailedRead)
          ∨ (((ReadBytes.loop impl len fuel read buff conn).1 = Exec.ret (len, none)
              ∨ (ReadBytes.loop impl len fuel read buff conn).1 = Exec.panic
              ∨ (ReadBytes.loop impl len fuel read buff conn).1 = Exec.fuelOut)
            ∧ ∀ e ∈ new, e.isRead ∧ ¬ e.isFailedRead)) := by
  intro fuel
  induction fuel with
  | zero =>
    intro read buff conn
    exact ⟨[], by simp [ReadBytes.loop], Or.inr ⟨by simp [ReadBytes.loop], by simp⟩⟩
  | succ fuel ih =>
    intro read buff conn
    unfold ReadBytes.loop
    cases hb : ReadBytes.body impl len read buff conn with
    | brk => exact ⟨[], by simp, Or.inr ⟨by simp, by simp⟩⟩
    | panic => exact ⟨[], by simp, Or.inr ⟨by simp, by simp⟩⟩
    | fail b c =>
      obtain ⟨ev, hlog, hev⟩ := ReadBytes.body_fail_ev impl len read buff conn b c hb
      exact ⟨[Event.close, ev], by simp [hlog], Or.inl ⟨rfl, ev, [], rfl, hev, by simp⟩⟩
    | next r b c =>
      obtain ⟨ev, hlog, hev1, hev2⟩ := ReadBytes.body_next_ev impl len read buff conn r b c hb
      obtain ⟨new, hnew, hcases⟩ := ih r b c
      refine ⟨new ++ [ev], by simp [hnew, hlog], ?_⟩
      simp only []
      rcases hcases with ⟨hres, ev1, rest, rfl, hf, hrest⟩ | ⟨hres, hall⟩
      · refine Or.inl ⟨hres, ev1, rest ++ [ev], by simp, hf, ?_⟩
        intro e he
        rcases List.mem_append.mp he with h | h
        · exact hrest e h
        · simp only [List.mem_singleton] at h; subst h; exact ⟨hev1, hev2⟩
      · refine Or.inr ⟨hres, ?_⟩
        intro e he
        rcases List.mem_append.mp he with h | h
        · exact hall e h
        · simp only [List.mem_singleton] at h; subst h; exact ⟨hev1, hev2⟩

theorem closeCalls_reads (new log : List Event) (h : ∀ e ∈ new, e.isRead ∧ ¬ e.isFailedRead) :
    closeCalls (new ++ log) = closeCalls log := by
  induction new with
  | nil => rfl
  | cons e new ih =>
    have he := (h e (by simp)).1
    have := ih (fun x hx => h x (by simp [hx]))
    cases e <;> simp_all [Event.isRead, closeCalls, List.count_cons]

theorem handlerCalls_reads (new log : List Event) (h : ∀ e ∈ new, e.isRead ∧ ¬ e.isFailedRead) :
    handlerCalls (new ++ log) = handlerCalls log := by
  induction new with
  | nil => rfl
  | cons e new ih =>
    have he := (h e (by simp)).1
    have := ih (fun x hx => h x (by simp [hx]))
    cases e <;> simp_all [Event.isRead, handlerCalls]

/-! ## The read loop on a pipe -/

theorem Pipe.read_n_le (p : Pipe) (size : Nat) : (pipe.read p size).1.n ≤ size := by
  show (Pipe.read p size).1.n ≤ size
  unfold Pipe.read
  split
  · simp
  · split
    · assumption
    · simp

theorem Delivers_zero (cs : List Chunk) : Delivers cs 0 := by
  cases cs <;> simp [Delivers]

theorem Delivers_cons_pos (c : Chunk) (cs : List Chunk) (k : Nat) (hk : 0 < k) :
    Delivers (c :: cs) k
      ↔ (c.bytes ≠ [] ∧ (c.bytes.length ≤ k → c.err = none) ∧ Delivers cs (k - c.bytes.length)) := by
  obtain ⟨k, rfl⟩ := Nat.exists_eq_succ_of_ne_zero (Nat.pos_iff_ne_zero.mp hk)
  simp [Delivers]

theorem Delivers_nil_pos (k : Nat) (hk : 0 < k) : ¬ Delivers [] k := by
  obtain ⟨k, rfl⟩ := Nat.exists_eq_succ_of_ne_zero (Nat.pos_iff_ne_zero.mp hk)
  simp [Delivers]

/-- A deliverable run of `k` bytes is there: the stream holds at least `k` bytes. -/
theorem Delivers_length : ∀ (cs : List Chunk) (k : Nat), Delivers cs k →
    k ≤ ((cs.map Chunk.bytes).flatten).length := by
  intro cs
  induction cs with
  | nil =>
    intro k h
    rcases Nat.eq_zero_or_pos k with rfl | hk
    · simp
    · exact absurd h (Delivers_nil_pos k hk)
  | cons c cs ih =>
    intro k h
    rcases Nat.eq_zero_or_pos k with rfl | hk
    · simp
    · rw [Delivers_cons_pos c cs k hk] at h
      have := ih _ h.2.2
      simp only [List.map_cons, List.flatten_cons, List.length_append]
      omega

/-- A shorter run is deliverable too. -/
theorem Delivers_mono : ∀ (cs : List Chunk) (k j : Nat), j ≤ k → Delivers cs k → Delivers cs j := by
  intro cs
  induction cs with
  | nil =>
    intro k j hjk h
    rcases Nat.eq_zero_or_pos j with rfl | hj
    · exact Delivers_zero _
    · exact absurd h (Delivers_nil_pos k (by omega))
  | cons c cs ih =>
    intro k j hjk h
    rcases Nat.eq_zero_or_pos j with rfl | hj
    · exact Delivers_zero _
    · rw [Delivers_cons_pos c cs k (by omega)] at h
      rw [Delivers_cons_pos c cs j hj]
      exact ⟨h.1, fun hle => h.2.1 (by omega), ih _ _ (by omega) h.2.2⟩

/-- Streams whose chunks are all non-empty and error-free deliver every run of
bytes they hold. -/
theorem Delivers_of_all_ok : ∀ (cs : List Chunk) (k : Nat),
    (∀ c ∈ cs, c.bytes ≠ [] ∧ c.err = none) → k ≤ ((cs.map Chunk.bytes).flatten).length →
    Delivers cs k := by
  intro cs
  induction cs with
  | nil =>
    intro k _ hk
    have : k = 0 := by simpa using hk
    subst this
    exact Delivers_zero _
  | cons c cs ih =>
    intro k hall hk
    rcases Nat.eq_zero_or_pos k with rfl | hpos
    · exact Delivers_zero _
    · rw [Delivers_cons_pos c cs k hpos]
      have hc := hall c (by simp)
      refine ⟨hc.1, fun _ => hc.2, ih _ (fun d hd => hall d (by simp [hd])) ?_⟩
      simp only [List.map_cons, List.flatten_cons, List.length_append] at hk
      omega

theorem store_eq (buff : List Byte) (read n : Nat) (d : List Byte) (hd : d.length ≤ n - read) :
    store buff read n d = buff.take read ++ d ++ buff.drop (read + d.length) := by
  simp [store, List.take_of_length_le hd]

theorem ReadBytes.body_brk {σ : Type} (impl : ConnImpl σ) (n read : Nat) (buff : List Byte)
    (conn : Conn σ) (h : n ≤ read) :
    ReadBytes.body impl (n : Int) read buff conn = Iter.brk := by
  have : (n : Int) ≤ (read : Int) := by exact_mod_cast h
  simp [ReadBytes.body, this]

theorem ReadBytes.body_next {σ : Type} (impl : ConnImpl σ) (n read : Nat) (buff : List Byte)
    (conn : Conn σ) (hlt : read < n) (hb : n ≤ buff.length)
    (hn0 : (impl.read conn.st (n - read)).1.n ≠ 0)
    (he : (impl.read conn.st (n - read)).1.err ≠ some GoError.EOF)
    (hle : (impl.read conn.st (n - read)).1.n ≤ n) :
    ReadBytes.body impl (n : Int) read buff conn
      = Iter.next (read + (impl.read conn.st (n - read)).1.n)
          (store buff read n (impl.read conn.st (n - read)).1.data)
          (Conn.Read impl conn (n - read)).2 := by
  have h1 : ¬ (n : Int) ≤ (read : Int) := by
    intro h; have : n ≤ read := by exact_mod_cast h
    omega
  have h2 : ¬ buff.length < n := by omega
  have h3 : ((impl.read conn.st (n - read)).1.n : Int) ≤ (n : Int) := by exact_mod_cast hle
  simp [ReadBytes.body, h1, h2, h3, hn0, he]

theorem ReadBytes.body_fail {σ : Type} (impl : ConnImpl σ) (n read : Nat) (buff : List Byte)
    (conn : Conn σ) (hlt : read < n) (hb : n ≤ buff.length)
    (hz : (impl.read conn.st (n - read)).1.n = 0
      ∨ (impl.read conn.st (n - read)).1.err = some GoError.EOF) :
    ReadBytes.body impl (n : Int) read buff conn
      = Iter.fail (store buff read n (impl.read conn.st (n - read)).1.data)
          (closeLive impl (Conn.Read impl conn (n - read)).2) := by
  have h1 : ¬ (n : Int) ≤ (read : Int) := by
    intro h; have : n ≤ read := by exact_mod_cast h
    omega
  have h2 : ¬ buff.length < n := by omega
  simp [ReadBytes.body, h1, h2, hz]

theorem Pipe.content_cons (p : Pipe) (c : Chunk) (rest : List Chunk) (h : p.incoming = c :: rest) :
    p.content = c.bytes ++ (rest.map Chunk.bytes).flatten := by
  simp [Pipe.content, h]

/-- One read of `s > 0` bytes from a pipe whose next `s + j` bytes are
deliverable: it returns some `l` bytes, `1 ≤ l ≤ s`, the next `l` of the
stream, without error, and the next `s - l + j` bytes stay deliverable. -/
theorem Pipe.read_delivers (p : Pipe) (s j : Nat) (hs : 0 < s)
    (hd : Delivers p.incoming (s + j)) :
    0 < (Pipe.read p s).1.n ∧ (Pipe.read p s).1.n ≤ s
    ∧ (Pipe.read p s).1.data = p.content.take (Pipe.read p s).1.n
    ∧ (Pipe.read p s).1.data.length = (Pipe.read p s).1.n
    ∧ (Pipe.read p s).1.err = none
    ∧ (Pipe.read p s).2.content = p.content.drop (Pipe.read p s).1.n
    ∧ (Pipe.read p s).2.outgoing = p.outgoing
    ∧ (Pipe.read p s).2.closes = p.closes
    ∧ Delivers (Pipe.read p s).2.incoming (s - (Pipe.read p s).1.n + j) := by
  cases hin : p.incoming with
  | nil =>
    rw [hin] at hd
    exact absurd hd (Delivers_nil_pos _ (by omega))
  | cons c rest =>
    rw [hin, Delivers_cons_pos c rest _ (by omega)] at hd
    obtain ⟨hne, herr, hrest⟩ := hd
    have hpos : 0 < c.bytes.length := List.length_pos.mpr hne
    have hcont := Pipe.content_cons p c rest hin
    by_cases hle : c.bytes.length ≤ s
    · have hr : Pipe.read p s
          = ({ n := c.bytes.length, data := c.bytes, err := c.err }, { p with incoming := rest }) := by
        simp [Pipe.read, hin, hle]
      rw [hr]
      refine ⟨hpos, hle, ?_, rfl, herr (by omega), ?_, rfl, rfl, ?_⟩
      · simp [hcont]
      · rw [hcont]; simp [Pipe.content]
      · have : s + j - c.bytes.length = s - c.bytes.length + j := by omega
        simpa [this] using hrest
    · have hr : Pipe.read p s
          = ({ n := s, data := c.bytes.take s, err := none },
             { p with incoming := { bytes := c.bytes.drop s, err := c.err } :: rest }) := by
        simp [Pipe.read, hin, hle]
      rw [hr]
      have hlt : s < c.bytes.length := by omega
      refine ⟨hs, le_refl _, ?_, ?_, rfl, ?_, rfl, rfl, ?_⟩
      · simp [hcont, List.take_append_of_le_length (le_of_lt hlt)]
      · simp [List.length_take]; omega
      · rw [hcont]; simp [Pipe.content, List.drop_append_of_le_length (le_of_lt hlt)]
      · simp only [Nat.sub_self, Nat.zero_add]
        rcases Nat.eq_zero_or_pos j with rfl | hj
        · exact Delivers_zero _
        · rw [Delivers_cons_pos _ _ j hj]
          refine ⟨?_, ?_, ?_⟩
          · simp only [ne_eq, List.drop_eq_nil_iff, not_le]; exact hlt
          · intro h
            simp only [List.length_drop] at h
            exact herr (by omega)
          · simp only [List.length_drop]
            have : j - (c.bytes.length - s) = s + j - c.bytes.length := by omega
            rw [this]; exact hrest

/-- Bookkeeping of the buffer across one iteration that stored the next `l`
bytes of `content` at offset `read`. -/
theorem store_step (buff content : List Byte) (read n l : Nat) (hr : read + l ≤ n)
    (hb : n ≤ buff.length) (hl : l ≤ content.length) :
    (store buff read n (content.take l)).length = buff.length
    ∧ (store buff read n (content.take l)).take (read + l)
        ++ (content.drop l).take (n - (read + l))
        ++ (store buff read n (content.take l)).drop n
      = buff.take read ++ content.take (n - read) ++ buff.drop n := by
  have hdl : (content.take l).length = l := by simp [List.length_take]; omega
  have hst : store buff read n (content.take l)
      = (buff.take read ++ content.take l) ++ buff.drop (read + l) := by
    rw [store_eq buff read n (content.take l) (by omega), hdl]
  have hpre : (buff.take read ++ content.take l).length = read + l := by
    simp [List.length_take, hdl]; omega
  rw [hst]
  constructor
  · simp only [List.length_append, List.length_take, List.length_drop]; omega
  · have h1 : ((buff.take read ++ content.take l) ++ buff.drop (read + l)).take (read + l)
        = buff.take read ++ content.take l := by
      rw [List.take_append_of_le_length (by omega), List.take_of_length_le (by omega)]
    have h2 : ((buff.take read ++ content.take l) ++ buff.drop (read + l)).drop n
        = buff.drop n := by
      rw [List.drop_append_eq_append_drop, List.drop_of_length_le (by omega), hpre,
        List.nil_append, List.drop_drop]
      congr 1; omega
    have h3 : content.take (n - read) = content.take l ++ (content.drop l).take (n - (read + l)) := by
      have : n - read = l + (n - (read + l)) := by omega
      rw [this, List.take_add]
    rw [h1, h2, h3]
    simp only [List.append_assoc]

/-- The loop of `ReadBytes` on a pipe whose next `n - read + j` bytes are
deliverable: it returns `(n, nil)` having stored the next `n - read` bytes of
the stream at offset `read`, consumed exactly those, closed nothing, and the
next `j` bytes stay deliverable. -/
theorem ReadBytes.loop_pipe_delivers (n : Nat) :
    ∀ (fuel read : Nat) (buff : List Byte) (p : Pipe) (log : List Event) (j : Nat),
      read ≤ n → n ≤ buff.length → Delivers p.incoming (n - read + j) → n - read < fuel →
      ∃ (p' : Pipe) (new : List Event),
        ReadBytes.loop pipe (n : Int) fuel read buff ⟨p, log⟩
          = (Exec.ret ((n : Int), none),
             buff.take read ++ p.content.take (n - read) ++ buff.drop n, ⟨p', new ++ log⟩)
        ∧ p'.content = p.content.drop (n - read) ∧ p'.outgoing = p.outgoing
        ∧ p'.closes = p.closes ∧ Delivers p'.incoming j
        ∧ (∀ ev ∈ new, ev.isRead ∧ ¬ ev.isFailedRead) := by
  intro fuel
  induction fuel with
  | zero => intro read buff p log j _ _ _ hf; omega
  | succ fuel ih =>
    intro read buff p log j hrn hbuf hd hf
    unfold ReadBytes.loop
    by_cases hlt : read < n
    · obtain ⟨hpos, hle, hdata, hdlen, herr, hcont, hout, hcl, hd1⟩ :=
        Pipe.read_delivers p (n - read) j (by omega) hd
      have hclen : (Pipe.read p (n - read)).1.n ≤ p.content.length := by
        rw [← hdlen, hdata, List.length_take]; omega
      have hbody := ReadBytes.body_next pipe n read buff ⟨p, log⟩ hlt hbuf
        (by show (Pipe.read p (n - read)).1.n ≠ 0; omega)
        (by show (Pipe.read p (n - read)).1.err ≠ _; rw [herr]; simp)
        (by show (Pipe.read p (n - read)).1.n ≤ n; omega)
      rw [hbody]
      simp only []
      have hst := store_step buff p.content read n (Pipe.read p (n - read)).1.n
        (by omega) hbuf hclen
      have hdata1 : (pipe.read p (n - read)).1.data
          = p.content.take (Pipe.read p (n - read)).1.n := hdata
      obtain ⟨p1, new, heq, h1, h2, h3, h4, h5⟩ :=
        ih (read + (pipe.read p (n - read)).1.n)
          (store buff read n (pipe.read p (n - read)).1.data)
          (Pipe.read p (n - read)).2
          (Event.read (n - read) (pipe.read p (n - read)).1.n (pipe.read p (n - read)).1.err :: log)
          j
          (by show read + (Pipe.read p (n - read)).1.n ≤ n; omega)
          (by rw [hdata1, hst.1]; exact hbuf)
          (by
            have : n - (read + (pipe.read p (n - read)).1.n) + j
                = n - read - (Pipe.read p (n - read)).1.n + j := by
              show n - (read + (Pipe.read p (n - read)).1.n) + j = _
              omega
            rw [this]; exact hd1)
          (by show n - (read + (Pipe.read p (n - read)).1.n) < fuel; omega)
      refine ⟨p1, new ++ [Event.read (n - read) (pipe.read p (n - read)).1.n
          (pipe.read p (n - read)).1.err], ?_, ?_, ?_, ?_, h4, ?_⟩
      · show ReadBytes.loop pipe (n : Int) fuel _ _ ⟨(Pipe.read p (n - read)).2, _⟩ = _
        rw [heq, hdata1, hcont]
        have hb := hst.2
        simp only [List.append_assoc, List.singleton_append] at hb ⊢
        rw [show (pipe.read p (n - read)).1.n = (Pipe.read p (n - read)).1.n from rfl, hb]
      · rw [h1, hcont, List.drop_drop]
        congr 1
        show (Pipe.read p (n - read)).1.n + (n - (read + (Pipe.read p (n - read)).1.n)) = _
        omega
      · rw [h2, hout]
      · rw [h3, hcl]
      · intro ev hev
        rcases List.mem_append.mp hev with h | h
        · exact h5 ev h
        · simp only [List.mem_singleton] at h
          subst h
          refine ⟨trivial, ?_⟩
          show ¬ ((Pipe.read p (n - read)).1.n = 0 ∨ (Pipe.read p (n - read)).1.err = _)
          rw [herr]
          simp
          omega
    · have hrn2 : read = n := by omega
      subst hrn2
      rw [ReadBytes.body_brk pipe read read buff ⟨p, log⟩ (le_refl _)]
      refine ⟨p, [], ?_, by simp, rfl, rfl, by simpa using hd, by simp⟩
      simp

/-! ## Truncated streams -/

theorem Starves_cons_pos (c : Chunk) (cs : List Chunk) (k : Nat) (hk : 0 < k) :
    Starves (c :: cs) k
      ↔ (c.bytes = [] ∨ (c.bytes.length ≤ k ∧ c.err = some GoError.EOF)
          ∨ (c.bytes.length < k ∧ Starves cs (k - c.bytes.length))) := by
  obtain ⟨k, rfl⟩ := Nat.exists_eq_succ_of_ne_zero (Nat.pos_iff_ne_zero.mp hk)
  simp [Starves]

theorem Starves_pos (cs : List Chunk) (k : Nat) (h : Starves cs k) : 0 < k := by
  rcases Nat.eq_zero_or_pos k with rfl | hk
  · cases cs <;> simp [Starves] at h
  · exact hk

theorem store_length (buff : List Byte) (read n : Nat) (d : List Byte) (hr : read ≤ n)
    (hb : n ≤ buff.length) : (store buff read n d).length = buff.length := by
  simp only [store, List.length_append, List.length_take, List.length_drop]
  omega

theorem Pipe.read_closes (p : Pipe) (s : Nat) :
    (Pipe.read p s).2.closes = p.closes ∧ (Pipe.read p s).2.outgoing = p.outgoing := by
  unfold Pipe.read
  split
  · exact ⟨rfl, rfl⟩
  · split <;> exact ⟨rfl, rfl⟩

/-- The loop of `ReadBytes` on a pipe that starves before `n - read` more
bytes: it returns `(0, READ_ERROR)`, and its last call is the one `Close`. -/
theorem ReadBytes.loop_pipe_starves (n : Nat) :
    ∀ (fuel read : Nat) (buff : List Byte) (p : Pipe) (log : List Event),
      read < n → n ≤ buff.length → Starves p.incoming (n - read) → n - read < fuel →
      ∃ (b1 : List Byte) (p1 : Pipe) (new : List Event),
        ReadBytes.loop pipe (n : Int) fuel read buff ⟨p, log⟩
          = (Exec.ret (0, some GoError.READ_ERROR), b1, ⟨p1, Event.close :: (new ++ log)⟩)
        ∧ p1.closes = p.closes + 1 ∧ p1.outgoing = p.outgoing
        ∧ (∀ ev ∈ new, ev.isRead) := by
  intro fuel
  induction fuel with
  | zero => intro read buff p log _ _ _ hf; omega
  | succ fuel ih =>
    intro read buff p log hlt hbuf hs hf
    have hfailcase : ((pipe.read p (n - read)).1.n = 0
        ∨ (pipe.read p (n - read)).1.err = some GoError.EOF) →
        ∃ (b1 : List Byte) (p1 : Pipe) (new : List Event),
          ReadBytes.loop pipe (n : Int) (fuel + 1) read buff ⟨p, log⟩
            = (Exec.ret (0, some GoError.READ_ERROR), b1, ⟨p1, Event.close :: (new ++ log)⟩)
          ∧ p1.closes = p.closes + 1 ∧ p1.outgoing = p.outgoing
          ∧ (∀ ev ∈ new, ev.isRead) := by
      intro hz
      unfold ReadBytes.loop
      rw [ReadBytes.body_fail pipe n read buff ⟨p, log⟩ hlt hbuf hz]
      refine ⟨store buff read n (pipe.read p (n - read)).1.data,
        (pipe.close (Pipe.read p (n - read)).2).2,
        [Event.read (n - read) (pipe.read p (n - read)).1.n (pipe.read p (n - read)).1.err],
        ?_, ?_, ?_, ?_⟩
      · simp only [closeLive_eq]
        rfl
      · show (Pipe.read p (n - read)).2.closes + 1 = _
        rw [(Pipe.read_closes p (n - read)).1]
      · show (Pipe.read p (n - read)).2.outgoing = _
        rw [(Pipe.read_closes p (n - read)).2]
      · intro ev hev
        simp only [List.mem_singleton] at hev
        subst hev
        trivial
    cases hin : p.incoming with
    | nil =>
      apply hfailcase
      left
      show (Pipe.read p (n - read)).1.n = 0
      simp [Pipe.read, hin]
    | cons c rest =>
      rw [hin, Starves_cons_pos c rest _ (by omega)] at hs
      by_cases hle : c.bytes.length ≤ n - read
      · have hr : Pipe.read p (n - read)
            = ({ n := c.bytes.length, data := c.bytes, err := c.err },
               { p with incoming := rest }) := by
          simp [Pipe.read, hin, hle]
        by_cases hz : c.bytes.length = 0 ∨ c.err = some GoError.EOF
        · apply hfailcase
          show (Pipe.read p (n - read)).1.n = 0 ∨ (Pipe.read p (n - read)).1.err = _
          rw [hr]; exact hz
        · have hz1 : c.bytes.length ≠ 0 := fun h => hz (Or.inl h)
          have hz2 : c.err ≠ some GoError.EOF := fun h => hz (Or.inr h)
          have hs3 : c.bytes.length < n - read ∧ Starves rest (n - read - c.bytes.length) := by
            rcases hs with h | h | h
            · exact absurd (by simp [h]) hz1
            · exact absurd h.2 hz2
            · exact h
          have hbody := ReadBytes.body_next pipe n read buff ⟨p, log⟩ hlt hbuf
            (by show (Pipe.read p (n - read)).1.n ≠ 0; rw [hr]; exact hz1)
            (by show (Pipe.read p (n - read)).1.err ≠ _; rw [hr]; exact hz2)
            (by show (Pipe.read p (n - read)).1.n ≤ n; rw [hr]; show c.bytes.length ≤ n; omega)
          unfold ReadBytes.loop
          rw [hbody]
          simp only []
          have hrn : (pipe.read p (n - read)).1.n = c.bytes.length := by
            show (Pipe.read p (n - read)).1.n = _; rw [hr]
          have hrs : (Conn.Read pipe ⟨p, log⟩ (n - read)).2
              = ⟨{ p with incoming := rest },
                 Event.read (n - read) c.bytes.length c.err :: log⟩ := by
            show (⟨(Pipe.read p (n - read)).2,
              Event.read (n - read) (Pipe.read p (n - read)).1.n (Pipe.read p (n - read)).1.err
                :: log⟩ : Conn Pipe) = _
            rw [hr]
          rw [hrn, hrs]
          obtain ⟨b1, p1, new, heq, h1, h2, h3⟩ :=
            ih (read + c.bytes.length) (store buff read n (pipe.read p (n - read)).1.data)
              { p with incoming := rest } (Event.read (n - read) c.bytes.length c.err :: log)
              (by omega) (by rw [store_length buff read n _ (by omega) hbuf]; exact hbuf)
              (by
                have : n - (read + c.bytes.length) = n - read - c.bytes.length := by omega
                rw [this]; exact hs3.2)
              (by omega)
          refine ⟨b1, p1, new ++ [Event.read (n - read) c.bytes.length c.err], ?_, h1, h2, ?_⟩
          · rw [heq]; simp
          · intro ev hev
            rcases List.mem_append.mp hev with h | h
            · exact h3 ev h
            · simp only [List.mem_singleton] at h; subst h; trivial
      · exfalso
        rcases hs with h | h | h
        · apply hle; simp [h]
        · exact hle h.1
        · exact hle (le_of_lt h.1)

/-- One successful read keeps a later starvation in place: if the next `s`
bytes are deliverable but the stream starves before `s + j`, then after a read
of `l` bytes it starves before `s - l + j`. -/
theorem Pipe.read_starves (p : Pipe) (s j : Nat) (hs : 0 < s)
    (hd : Delivers p.incoming s) (hst : Starves p.incoming (s + j)) :
    Starves (Pipe.read p s).2.incoming (s - (Pipe.read p s).1.n + j) := by
  cases hin : p.incoming with
  | nil =>
    rw [hin] at hd
    exact absurd hd (Delivers_nil_pos _ hs)
  | cons c rest =>
    rw [hin, Delivers_cons_pos c rest _ hs] at hd
    rw [hin, Starves_cons_pos c rest _ (by omega)] at hst
    obtain ⟨hne, herr, _⟩ := hd
    by_cases hle : c.bytes.length ≤ s
    · have hr : Pipe.read p s
          = ({ n := c.bytes.length, data := c.bytes, err := c.err }, { p with incoming := rest }) := by
        simp [Pipe.read, hin, hle]
      rw [hr]
      rcases hst with h | h | h
      · exact absurd h hne
      · rw [herr hle] at h; exact absurd h.2 (by simp)
      · have : s - c.bytes.length + j = s + j - c.bytes.length := by omega
        simpa [this] using h.2
    · have hr : Pipe.read p s
          = ({ n := s, data := c.bytes.take s, err := none },
             { p with incoming := { bytes := c.bytes.drop s, err := c.err } :: rest }) := by
        simp [Pipe.read, hin, hle]
      rw [hr]
      simp only [Nat.sub_self, Nat.zero_add]
      have hjpos : 0 < j := by
        rcases hst with h | h | h
        · exact absurd h hne
        · omega
        · omega
      rw [Starves_cons_pos _ _ j hjpos]
      rcases hst with h | h | h
      · exact absurd h hne
      · right; left
        simp only [List.length_drop]
        exact ⟨by omega, h.2⟩
      · right; right
        simp only [List.length_drop]
        refine ⟨by omega, ?_⟩
        have : j - (c.bytes.length - s) = s + j - c.bytes.length := by omega
        rw [this]; exact h.2

/-- The loop of `ReadBytes` on a pipe that delivers the `n - read` bytes asked
for but starves before `j` more: afterwards the pipe starves before `j`. -/
theorem ReadBytes.loop_pipe_starves_later (n : Nat) :
    ∀ (fuel read : Nat) (buff : List Byte) (p : Pipe) (log : List Event) (j : Nat),
      read ≤ n → n ≤ buff.length → Delivers p.incoming (n - read) →
      Starves p.incoming (n - read + j) → n - read < fuel →
      Starves (ReadBytes.loop pipe (n : Int) fuel read buff ⟨p, log⟩).2.2.st.incoming j := by
  intro fuel
  induction fuel with
  | zero => intro read buff p log j _ _ _ _ hf; omega
  | succ fuel ih =>
    intro read buff p log j hrn hbuf hd hst hf
    unfold ReadBytes.loop
    by_cases hlt : read < n
    · obtain ⟨hpos, hle, hdata, hdlen, herr, _, _, _, hd1⟩ :=
        Pipe.read_delivers p (n - read) 0 (by omega) (by simpa using hd)
      have hst1 := Pipe.read_starves p (n - read) j (by omega) hd hst
      have hbody := ReadBytes.body_next pipe n read buff ⟨p, log⟩ hlt hbuf
        (by show (Pipe.read p (n - read)).1.n ≠ 0; omega)
        (by show (Pipe.read p (n - read)).1.err ≠ _; rw [herr]; simp)
        (by show (Pipe.read p (n - read)).1.n ≤ n; omega)
      rw [hbody]
      simp only []
      exact ih (read + (pipe.read p (n - read)).1.n)
        (store buff read n (pipe.read p (n - read)).1.data)
        (Pipe.read p (n - read)).2
        (Event.read (n - read) (pipe.read p (n - read)).1.n (pipe.read p (n - read)).1.err :: log)
        j
        (by show read + (Pipe.read p (n - read)).1.n ≤ n; omega)
        (by rw [store_length buff read n _ (by omega) hbuf]; exact hbuf)
        (by
          have : n - (read + (pipe.read p (n - read)).1.n)
              = n - read - (Pipe.read p (n - read)).1.n + 0 := by
            show n - (read + (Pipe.read p (n - read)).1.n) = _
            omega
          rw [this]; exact hd1)
        (by
          have : n - (read + (pipe.read p (n - read)).1.n) + j
              = n - read - (Pipe.read p (n - read)).1.n + j := by
            show n - (read + (Pipe.read p (n - read)).1.n) + j = _
            omega
          rw [this]; exact hst1)
        (by show n - (read + (Pipe.read p (n - read)).1.n) < fuel; omega)
    · have hrn2 : read = n := by omega
      subst hrn2
      rw [ReadBytes.body_brk pipe read read buff ⟨p, log⟩ (le_refl _)]
      simpa using hst

/-! ## Decoding what the codec encodes -/

theorem or_shiftLeft_eq_add (a b k : Nat) (ha : a < 2 ^ k) : a ||| b <<< k = a + b * 2 ^ k := by
  rw [Nat.shiftLeft_eq, Nat.or_comm, Nat.mul_comm, ← Nat.mul_add_lt_is_or ha, Nat.add_comm]

/-- The value `binary.BigEndian.Uint64` reads off 8 bytes, as a sum. -/
theorem uint64_eq_sum (b0 b1 b2 b3 b4 b5 b6 b7 : Byte) :
    uint64 [b0, b1, b2, b3, b4, b5, b6, b7]
      = b7.val + b6.val * 2 ^ 8 + b5.val * 2 ^ 16 + b4.val * 2 ^ 24 + b3.val * 2 ^ 32
        + b2.val * 2 ^ 40 + b1.val * 2 ^ 48 + b0.val * 2 ^ 56 := by
  have h0 := b0.isLt
  have h1 := b1.isLt
  have h2 := b2.isLt
  have h3 := b3.isLt
  have h4 := b4.isLt
  have h5 := b5.isLt
  have h6 := b6.isLt
  have h7 := b7.isLt
  simp only [uint64, List.getD_cons_succ, List.getD_cons_zero]
  rw [or_shiftLeft_eq_add _ _ 8 (by norm_num)]
  rw [or_shiftLeft_eq_add _ _ 16 (by norm_num; omega)]
  rw [or_shiftLeft_eq_add _ _ 24 (by norm_num; omega)]
  rw [or_shiftLeft_eq_add _ _ 32 (by norm_num; omega)]
  rw [or_shiftLeft_eq_add _ _ 40 (by norm_num; omega)]
  rw [or_shiftLeft_eq_add _ _ 48 (by norm_num; omega)]
  rw [or_shiftLeft_eq_add _ _ 56 (by norm_num; omega)]

/-- Decoding inverts encoding on `uint64` values. -/
theorem uint64_convertLen2Bytes (v : Nat) : uint64 (convertLen2Bytes v) = v % 2 ^ 64 := by
  simp only [convertLen2Bytes, putUint64]
  rw [uint64_eq_sum]
  simp only [toByte, Nat.shiftRight_eq_div_pow]
  norm_num
  omega

theorem toInt_of_lt (x : Nat) (h : x < 2 ^ 63) : toInt x = (x : Int) := by
  have h63 : (2 : Nat) ^ 63 = 9223372036854775808 := by norm_num
  have h64 : (2 : Nat) ^ 64 = 18446744073709551616 := by norm_num
  have hmod : x % 2 ^ 64 = x := Nat.mod_eq_of_lt (by omega)
  simp only [toInt, hmod, h, if_true]

theorem toInt_neg_of_ge (x : Nat) (h1 : 2 ^ 63 ≤ x) (h2 : x < 2 ^ 64) : toInt x < 0 := by
  have h63 : (2 : Nat) ^ 63 = 9223372036854775808 := by norm_num
  have h64 : (2 : Nat) ^ 64 = 18446744073709551616 := by norm_num
  have hmod : x % 2 ^ 64 = x := Nat.mod_eq_of_lt h2
  have hn : ¬ x < 2 ^ 63 := by omega
  simp only [toInt, hmod, hn, if_false]
  have : (x : Int) < 18446744073709551616 := by exact_mod_cast (h64 ▸ h2)
  norm_num
  omega

/-! ## The frame reader on a pipe -/

/-- Reading a frame head from a pipe whose header declares a metadata length
`ml < 2^63` and whose next `18 + ml` bytes are deliverable: `readHeadBytes`
returns the decoded header fields and the `ml` metadata bytes, has consumed
exactly `18 + ml` bytes, and has closed nothing. -/
theorem readHeadBytes_pipe (p : Pipe) (log : List Event) (fuel j : Nat)
    (hml : uint64 (slice (p.content.take 18) 2 10) < 2 ^ 63)
    (hd : Delivers p.incoming (18 + uint64 (slice (p.content.take 18) 2 10) + j))
    (hf : 18 + uint64 (slice (p.content.take 18) 2 10) < fuel) :
    ∃ (p2 : Pipe) (new : List Event),
      readHeadBytes pipe fuel ⟨p, log⟩
        = (Exec.ret ⟨retrieveOperation (slice (p.content.take 18) 0 2),
              uint64 (slice (p.content.take 18) 2 10),
              uint64 (slice (p.content.take 18) 10 18),
              (p.content.drop 18).take (uint64 (slice (p.content.take 18) 2 10)), none⟩,
           ⟨p2, new ++ log⟩)
      ∧ p2.content = p.content.drop (18 + uint64 (slice (p.content.take 18) 2 10))
      ∧ p2.outgoing = p.outgoing ∧ p2.closes = p.closes
      ∧ Delivers p2.incoming j
      ∧ (∀ ev ∈ new, ev.isRead ∧ ¬ ev.isFailedRead) := by
  generalize hmlv : uint64 (slice (p.content.take 18) 2 10) = ml at hml hd hf
  obtain ⟨p1, new1, heq1, hc1, ho1, hcl1, hd1, hr1⟩ :=
    ReadBytes.loop_pipe_delivers 18 fuel 0 (List.replicate 18 0) p log (ml + j)
      (Nat.zero_le _) (by simp) (by simpa [Nat.add_assoc] using hd) (by omega)
  have hlen18 : 18 ≤ p.content.length := by
    have := Delivers_length p.incoming _ hd
    simp only [Pipe.content]; omega
  have hbuf1 : (List.replicate 18 (0 : Byte)).take 0 ++ p.content.take (18 - 0)
      ++ (List.replicate 18 (0 : Byte)).drop 18 = p.content.take 18 := by
    simp
  rw [hbuf1] at heq1
  obtain ⟨p2, new2, heq2, hc2, ho2, hcl2, hd2, hr2⟩ :=
    ReadBytes.loop_pipe_delivers ml fuel 0 (List.replicate ml 0) p1 (new1 ++ log) j
      (Nat.zero_le _) (by simp) (by simpa using hd1) (by omega)
  have hbuf2 : (List.replicate ml (0 : Byte)).take 0 ++ p1.content.take (ml - 0)
      ++ (List.replicate ml (0 : Byte)).drop ml = p1.content.take ml := by
    simp
  rw [hbuf2] at heq2
  have hmeta : readMetaBytes pipe fuel (toInt ml) ⟨p1, new1 ++ log⟩
      = (Exec.ret (p1.content.take ml, none), ⟨p2, new2 ++ (new1 ++ log)⟩) := by
    rw [toInt_of_lt ml hml]
    have hnn : ¬ ((ml : Int) < 0) := by omega
    simp only [readMetaBytes, hnn, if_false, Int.toNat_ofNat, ReadBytes, heq2]
    simp
  refine ⟨p2, new2 ++ new1, ?_, ?_, by rw [ho2, ho1], by rw [hcl2, hcl1], hd2, ?_⟩
  · simp only [readHeadBytes, ReadBytes, HeaderSize]
    rw [show ((18 : Nat) : Int) = ((18 : Nat) : Int) from rfl, heq1]
    simp only [true_and, if_true, hmlv, hmeta, ne_eq, not_true_eq_false, if_false]
    rw [hc1]
    simp
  · rw [hc2, hc1, List.drop_drop]
    simp [Nat.add_comm]
  · intro ev hev
    rcases List.mem_append.mp hev with h | h
    · exact hr2 ev h
    · exact hr1 ev h

/-- A pipe that starves inside the 18 header bytes: `readHeadBytes` returns
READ_ERROR and its last call on the connection is the one `Close`. -/
theorem readHeadBytes_pipe_short_header (p : Pipe) (log : List Event) (fuel : Nat)
    (hs : Starves p.incoming 18) (hf : 18 < fuel) :
    ∃ (p1 : Pipe) (new : List Event),
      readHeadBytes pipe fuel ⟨p, log⟩
        = (Exec.ret ⟨0, 0, 0, [], some GoError.READ_ERROR⟩, ⟨p1, Event.close :: (new ++ log)⟩)
      ∧ p1.closes = p.closes + 1 ∧ (∀ ev ∈ new, ev.isRead) := by
  obtain ⟨b1, p1, new, heq, hcl, _, hr⟩ :=
    ReadBytes.loop_pipe_starves 18 fuel 0 (List.replicate 18 0) p log (by omega) (by simp)
      (by simpa using hs) (by omega)
  refine ⟨p1, new, ?_, hcl, hr⟩
  simp only [readHeadBytes, ReadBytes, HeaderSize]
  rw [show ((18 : Nat) : Int) = ((18 : Nat) : Int) from rfl, heq]
  simp

/-- A pipe that delivers a header declaring `ml < 2^63` metadata bytes and
starves before they are all there: `readHeadBytes` returns READ_ERROR and its
last call on the connection is the one `Close`. -/
theorem readHeadBytes_pipe_short_meta (p : Pipe) (log : List Event) (fuel : Nat)
    (hd : Delivers p.incoming 18)
    (hml : uint64 (slice (p.content.take 18) 2 10) < 2 ^ 63)
    (hs : Starves p.incoming (18 + uint64 (slice (p.content.take 18) 2 10)))
    (hf : 18 + uint64 (slice (p.content.take 18) 2 10) < fuel) :
    ∃ (p2 : Pipe) (new : List Event),
      readHeadBytes pipe fuel ⟨p, log⟩
        = (Exec.ret ⟨0, 0, 0, [], some GoError.READ_ERROR⟩, ⟨p2, Event.close :: (new ++ log)⟩)
      ∧ p2.closes = p.closes + 1 ∧ (∀ ev ∈ new, ev.isRead) := by
  generalize hmlv : uint64 (slice (p.content.take 18) 2 10) = ml at hml hs hf
  obtain ⟨p1, new1, heq1, _, _, hcl1, _, hr1⟩ :=
    ReadBytes.loop_pipe_delivers 18 fuel 0 (List.replicate 18 0) p log 0
      (Nat.zero_le _) (by simp) (by simpa using hd) (by omega)
  have hst1 := ReadBytes.loop_pipe_starves_later 18 fuel 0 (List.replicate 18 0) p log ml
    (Nat.zero_le _) (by simp) (by simpa using hd) (by simpa using hs) (by omega)
  rw [heq1] at hst1
  simp only [] at hst1
  have hbuf1 : (List.replicate 18 (0 : Byte)).take 0 ++ p.content.take (18 - 0)
      ++ (List.replicate 18 (0 : Byte)).drop 18 = p.content.take 18 := by
    simp
  rw [hbuf1] at heq1
  have hmlpos : 0 < ml := Starves_pos _ _ hst1
  obtain ⟨b2, p2, new2, heq2, hcl2, _, hr2⟩ :=
    ReadBytes.loop_pipe_starves ml fuel 0 (List.replicate ml 0) p1 (new1 ++ log) hmlpos
      (by simp) (by simpa using hst1) (by omega)
  have hmeta : readMetaBytes pipe fuel (toInt ml) ⟨p1, new1 ++ log⟩
      = (Exec.ret ([], some GoError.READ_ERROR),
         ⟨p2, Event.close :: (new2 ++ (new1 ++ log))⟩) := by
    rw [toInt_of_lt ml hml]
    have hnn : ¬ ((ml : Int) < 0) := by omega
    simp only [readMetaBytes, hnn, if_false, Int.toNat_ofNat, ReadBytes, heq2]
    simp
  refine ⟨p2, new2 ++ new1, ?_, by rw [hcl2, hcl1], ?_⟩
  · simp only [readHeadBytes, ReadBytes, HeaderSize]
    rw [show ((18 : Nat) : Int) = ((18 : Nat) : Int) from rfl, heq1]
    simp only [true_and, if_true, hmlv, hmeta]
    simp
  · intro ev hev
    rcases List.mem_append.mp hev with h | h
    · exact hr2 ev h
    · exact (hr1 ev h).1

/-- Truncated frames on a pipe, for declared metadata lengths below `2^63`:
when the stream starves inside the header, or delivers the header and starves
inside the declared metadata, `ReceiveRequest` and `ReceiveResponse` return
READ_ERROR, do not run the handler, and `Close` is the last call made. -/
theorem Receive_truncated_pipe (p : Pipe) (log : List Event) (fuel : Nat)
    (handler : Handler Pipe)
    (h : Starves p.incoming 18
      ∨ (Delivers p.incoming 18 ∧ uint64 (slice (p.content.take 18) 2 10) < 2 ^ 63
          ∧ Starves p.incoming (18 + uint64 (slice (p.content.take 18) 2 10))))
    (hf : 18 + uint64 (slice (p.content.take 18) 2 10) < fuel) :
    ∃ (p1 : Pipe) (new : List Event),
      Bridge.ReceiveRequest pipe fuel ⟨⟨p, log⟩⟩ handler
        = (Exec.ret (some GoError.READ_ERROR), ⟨⟨p1, Event.close :: (new ++ log)⟩⟩)
      ∧ Bridge.ReceiveResponse pipe fuel ⟨⟨p, log⟩⟩ handler
        = (Exec.ret (some GoError.READ_ERROR), ⟨⟨p1, Event.close :: (new ++ log)⟩⟩)
      ∧ p1.closes = p.closes + 1 ∧ (∀ ev ∈ new, ev.isRead) := by
  have key : ∃ (p1 : Pipe) (new : List Event),
      readHeadBytes pipe fuel ⟨p, log⟩
        = (Exec.ret ⟨0, 0, 0, [], some GoError.READ_ERROR⟩, ⟨p1, Event.close :: (new ++ log)⟩)
      ∧ p1.closes = p.closes + 1 ∧ (∀ ev ∈ new, ev.isRead) := by
    rcases h with h | ⟨hd, hml, hs⟩
    · exact readHeadBytes_pipe_short_header p log fuel h (by omega)
    · exact readHeadBytes_pipe_short_meta p log fuel hd hml hs hf
  obtain ⟨p1, new, heq, hcl, hr⟩ := key
  refine ⟨p1, new, ?_, ?_, hcl, hr⟩
  · simp [Bridge.ReceiveRequest, heq]
  · simp [Bridge.ReceiveResponse, heq]

/-- The fixed offsets of a frame: tag, metadata length, body length, rest. -/
theorem frame_slices (t a c rest : List Byte) (ht : t.length = 2) (ha : a.length = 8)
    (hc : c.length = 8) :
    slice ((t ++ a ++ c ++ rest).take 18) 0 2 = t
    ∧ slice ((t ++ a ++ c ++ rest).take 18) 2 10 = a
    ∧ slice ((t ++ a ++ c ++ rest).take 18) 10 18 = c
    ∧ (t ++ a ++ c ++ rest).drop 18 = rest := by
  have hlen : (t ++ a ++ c).length = 18 := by simp [ht, ha, hc]
  have h18 : (t ++ a ++ c ++ rest).take 18 = t ++ a ++ c := by
    rw [← hlen, List.take_left']
    rfl
  rw [h18]
  refine ⟨?_, ?_, ?_, ?_⟩
  · simp [slice, List.take_append_eq_append_take, ht]
  · simp [slice, List.take_append_eq_append_take, List.drop_append_eq_append_drop, ht, ha]
  · have hd : t.drop 10 = [] := List.drop_of_length_le (by omega)
    have htc : c.take 8 = c := List.take_of_length_le (by omega)
    simp [slice, List.take_append_eq_append_take, List.drop_append_eq_append_drop, ht, ha, hc,
      hd, htc]
  · rw [← hlen, List.drop_left']
    rfl

theorem retrieveOperation_registered (op : Int) (hop : op = O_CONNECT ∨ op = O_RESPONSE) :
    retrieveOperation ((operationHeadMap op).getD []) = op := by
  rcases hop with h | h <;> subst h <;> decide

theorem operationHeadMap_length (op : Int) (hop : op = O_CONNECT ∨ op = O_RESPONSE) :
    ((operationHeadMap op).getD []).length = 2 := by
  rcases hop with h | h <;> subst h <;> decide

/-- Sending a request over a pipe with a body writer that writes `body`: no
error, and the bytes written are the header buffer followed by the body (the
body writer is not run when BodyLength is 0). -/
theorem SendRequest_pipe (ps : Pipe) (logs : List Event) (request : Meta) (body : List Byte) :
    (Bridge.SendRequest pipe ⟨⟨ps, logs⟩⟩ request (writeBody pipe body)).1 = none
    ∧ (Bridge.SendRequest pipe ⟨⟨ps, logs⟩⟩ request (writeBody pipe body)).2.connection.st.outgoing
      = ps.outgoing ++ SendRequest.headerBuff request
          ++ (if request.BodyLength > 0 then body else []) := by
  by_cases hpos : request.BodyLength > 0
  · simp [Bridge.SendRequest, sendBuff, pipe, Conn.Write, callBodyWriter, writeBody, hpos]
  · simp [Bridge.SendRequest, sendBuff, pipe, Conn.Write, hpos]

/-- Receiving a request from a pipe holding a complete, deliverable frame
head: the handler is run once, on the decoded envelope and on the pipe
positioned just after the metadata. -/
theorem ReceiveRequest_pipe (p : Pipe) (log : List Event) (fuel j : Nat) (handler : Handler Pipe)
    (hml : uint64 (slice (p.content.take 18) 2 10) < 2 ^ 63)
    (hd : Delivers p.incoming (18 + uint64 (slice (p.content.take 18) 2 10) + j))
    (hf : 18 + uint64 (slice (p.content.take 18) 2 10) < fuel) :
    ∃ (p2 : Pipe) (new : List Event) (m : Meta),
      Bridge.ReceiveRequest pipe fuel ⟨⟨p, log⟩⟩ handler
        = (Exec.ret (handler m p2).1,
           ⟨⟨(handler m p2).2, Event.handler m :: (new ++ log)⟩⟩)
      ∧ m = ⟨retrieveOperation (slice (p.content.take 18) 0 2), 0,
              uint64 (slice (p.content.take 18) 10 18),
              (p.content.drop 18).take (uint64 (slice (p.content.take 18) 2 10)), none⟩
      ∧ p2.content = p.content.drop (18 + uint64 (slice (p.content.take 18) 2 10))
      ∧ p2.outgoing = p.outgoing ∧ p2.closes = p.closes
      ∧ Delivers p2.incoming j
      ∧ (∀ ev ∈ new, ev.isRead ∧ ¬ ev.isFailedRead) := by
  obtain ⟨p2, new, heq, hc, ho, hcl, hd2, hr⟩ := readHeadBytes_pipe p log fuel j hml hd hf
  refine ⟨p2, new, _, ?_, rfl, hc, ho, hcl, hd2, hr⟩
  simp [Bridge.ReceiveRequest, heq, callHandler]

/-- Receiving a response from a pipe holding a complete, deliverable frame
head: as for a request, and the envelope carries the metadata length. -/
theorem ReceiveResponse_pipe (p : Pipe) (log : List Event) (fuel j : Nat) (handler : Handler Pipe)
    (hml : uint64 (slice (p.content.take 18) 2 10) < 2 ^ 63)
    (hd : Delivers p.incoming (18 + uint64 (slice (p.content.take 18) 2 10) + j))
    (hf : 18 + uint64 (slice (p.content.take 18) 2 10) < fuel) :
    ∃ (p2 : Pipe) (new : List Event) (m : Meta),
      Bridge.ReceiveResponse pipe fuel ⟨⟨p, log⟩⟩ handler
        = (Exec.ret (handler m p2).1,
           ⟨⟨(handler m p2).2, Event.handler m :: (new ++ log)⟩⟩)
      ∧ m = ⟨retrieveOperation (slice (p.content.take 18) 0 2),
              uint64 (slice (p.content.take 18) 2 10),
              uint64 (slice (p.content.take 18) 10 18),
              (p.content.drop 18).take (uint64 (slice (p.content.take 18) 2 10)), none⟩
      ∧ p2.content = p.content.drop (18 + uint64 (slice (p.content.take 18) 2 10))
      ∧ p2.outgoing = p.outgoing ∧ p2.closes = p.closes
      ∧ Delivers p2.incoming j
      ∧ (∀ ev ∈ new, ev.isRead ∧ ¬ ev.isFailedRead) := by
  obtain ⟨p2, new, heq, hc, ho, hcl, hd2, hr⟩ := readHeadBytes_pipe p log fuel j hml hd hf
  refine ⟨p2, new, _, ?_, rfl, hc, ho, hcl, hd2, hr⟩
  simp [Bridge.ReceiveResponse, heq, callHandler]

/-- The envelope `ReceiveResponse` hands to its handler has
`metaLength = len(MetaBody)` (the sibling `ReceiveRequest` leaves metaLength 0). -/
theorem ReceiveResponse_pipe_metaLength (p : Pipe) (log : List Event) (fuel : Nat)
    (handler : Handler Pipe)
    (hml : uint64 (slice (p.content.take 18) 2 10) < 2 ^ 63)
    (hd : Delivers p.incoming (18 + uint64 (slice (p.content.take 18) 2 10)))
    (hf : 18 + uint64 (slice (p.content.take 18) 2 10) < fuel) :
    ∃ (p2 : Pipe) (new : List Event) (m : Meta),
      Bridge.ReceiveResponse pipe fuel ⟨⟨p, log⟩⟩ handler
        = (Exec.ret (handler m p2).1,
           ⟨⟨(handler m p2).2, Event.handler m :: (new ++ log)⟩⟩)
      ∧ m.metaLength = m.MetaBody.length := by
  obtain ⟨p2, new, m, heq, hm, _⟩ :=
    ReceiveResponse_pipe p log fuel 0 handler hml (by simpa using hd) hf
  refine ⟨p2, new, m, heq, ?_⟩
  have hlen := Delivers_length p.incoming _ hd
  have hc : ((p.incoming.map Chunk.bytes).flatten).length = p.content.length := rfl
  rw [hm]
  simp only [List.length_take, List.length_drop]
  omega

/-- What a pipe holding a frame written by `SendRequest` decodes to. -/
theorem frame_decode (request : Meta) (body : List Byte)
    (hop : request.Operation = O_CONNECT ∨ request.Operation = O_RESPONSE)
    (hm : request.metaLength < 2 ^ 64) (hb : request.BodyLength < 2 ^ 64) :
    retrieveOperation (slice ((SendRequest.headerBuff request ++ body).take 18) 0 2)
      = request.Operation
    ∧ uint64 (slice ((SendRequest.headerBuff request ++ body).take 18) 2 10) = request.metaLength
    ∧ uint64 (slice ((SendRequest.headerBuff request ++ body).take 18) 10 18)
        = request.BodyLength
    ∧ (SendRequest.headerBuff request ++ body).drop 18 = request.MetaBody ++ body := by
  have hs := frame_slices ((operationHeadMap request.Operation).getD [])
    (convertLen2Bytes request.metaLength) (convertLen2Bytes request.BodyLength)
    (request.MetaBody ++ body) (operationHeadMap_length _ hop) (convertLen2Bytes_length _)
    (convertLen2Bytes_length _)
  have hw : SendRequest.headerBuff request ++ body
      = (operationHeadMap request.Operation).getD [] ++ convertLen2Bytes request.metaLength
        ++ convertLen2Bytes request.BodyLength ++ (request.MetaBody ++ body) := by
    simp [SendRequest.headerBuff]
  rw [hw]
  obtain ⟨h1, h2, h3, h4⟩ := hs
  rw [h1, h2, h3, h4]
  refine ⟨retrieveOperation_registered _ hop, ?_, ?_, rfl⟩
  · rw [uint64_convertLen2Bytes, Nat.mod_eq_of_lt hm]
  · rw [uint64_convertLen2Bytes, Nat.mod_eq_of_lt hb]

/-! ## The registry in any iteration order -/

/-- When every entry with tag `t` has key `k` and there is one, the scan
returns `k`. -/
theorem retrieveOperationIn_of_mem (order : List (Int × List Byte)) (t : List Byte) (k : Int)
    (hfun : ∀ e ∈ order, e.2 = t → e.1 = k) (hex : ∃ e ∈ order, e.2 = t) :
    retrieveOperationIn order t = k := by
  induction order with
  | nil => obtain ⟨e, he, _⟩ := hex; simp at he
  | cons e rest ih =>
    obtain ⟨k1, v⟩ := e
    unfold retrieveOperationIn
    by_cases htv : t = v
    · simp only [htv, if_true]
      exact hfun (k1, v) (by simp) htv.symm
    · simp only [htv, if_false]
      apply ih
      · intro e he; exact hfun e (by simp [he])
      · obtain ⟨e, he, het⟩ := hex
        rcases List.mem_cons.mp he with h | h
        · subst h; exact absurd het.symm htv
        · exact ⟨e, h, het⟩

/-- When no entry has tag `t`, the scan returns 0. -/
theorem retrieveOperationIn_of_not_mem (order : List (Int × List Byte)) (t : List Byte)
    (h : ∀ e ∈ order, e.2 ≠ t) : retrieveOperationIn order t = 0 := by
  induction order with
  | nil => rfl
  | cons e rest ih =>
    obtain ⟨k1, v⟩ := e
    unfold retrieveOperationIn
    have htv : ¬ t = v := fun hv => h (k1, v) (by simp) hv.symm
    simp only [htv, if_false]
    exact ih (fun e he => h e (by simp [he]))

theorem mem_operationHeadEntries (e : Int × List Byte) :
    e ∈ operationHeadEntries ↔ (e = (O_CONNECT, [1, 1]) ∨ e = (O_RESPONSE, [1, 2])) := by
  simp [operationHeadEntries]

/-- The scan over the registry entries in any order: a function of the tag. -/
theorem retrieveOperationIn_perm (order : List (Int × List Byte))
    (hperm : order.Perm operationHeadEntries) (t : List Byte) :
    retrieveOperationIn order t
      = if t = [1, 1] then O_CONNECT else if t = [1, 2] then O_RESPONSE else 0 := by
  have hmem : ∀ e, e ∈ order ↔ (e = (O_CONNECT, [1, 1]) ∨ e = (O_RESPONSE, [1, 2])) := by
    intro e; rw [hperm.mem_iff, mem_operationHeadEntries]
  by_cases h1 : t = [1, 1]
  · simp only [h1, if_true]
    apply retrieveOperationIn_of_mem
    · intro e he het
      rcases (hmem e).mp he with h | h
      · rw [h]
      · rw [h] at het; exact absurd het (by decide)
    · exact ⟨(O_CONNECT, [1, 1]), (hmem _).mpr (Or.inl rfl), rfl⟩
  · by_cases h2 : t = [1, 2]
    · have h21 : ¬ ([1, 2] : List Byte) = [1, 1] := by decide
      simp only [h2, h21, if_true, if_false]
      apply retrieveOperationIn_of_mem
      · intro e he het
        rcases (hmem e).mp he with h | h
        · rw [h] at het; exact absurd het (by decide)
        · rw [h]
      · exact ⟨(O_RESPONSE, [1, 2]), (hmem _).mpr (Or.inr rfl), rfl⟩
    · simp only [h1, h2, if_false]
      apply retrieveOperationIn_of_not_mem
      intro e he het
      rcases (hmem e).mp he with h | h
      · rw [h] at het; exact h1 het.symm
      · rw [h] at het; exact h2 het.symm

theorem operationHeadMap_eq_some (op : Int) (tag : List Byte) (h : operationHeadMap op = some tag) :
    (op = O_CONNECT ∧ tag = [1, 1]) ∨ (op = O_RESPONSE ∧ tag = [1, 2]) := by
  by_cases h1 : op = O_CONNECT
  · subst h1
    rw [operationHeadMap_connect] at h
    exact Or.inl ⟨rfl, (Option.some.inj h).symm⟩
  · by_cases h2 : op = O_RESPONSE
    · subst h2
      rw [operationHeadMap_response] at h
      exact Or.inr ⟨rfl, (Option.some.inj h).symm⟩
    · rw [operationHeadMap_unregistered op h1 h2] at h
      exact absurd h (by simp)

/-! ## The common tail of the send operations, case by case -/

/-- Header written in full, BodyLength = 0: nothing else is done. -/
theorem sendBuff_no_body {σ : Type} (impl : ConnImpl σ) (headerBuff : List Byte)
    (bodyWriterHandler : BodyWriter σ) (bridge : Bridge σ)
    (hw : (impl.write bridge.connection.st headerBuff).1 = (headerBuff.length, none)) :
    sendBuff impl headerBuff 0 bodyWriterHandler bridge
      = (none, ⟨⟨(impl.write bridge.connection.st headerBuff).2,
                 Event.write headerBuff :: bridge.connection.log⟩⟩) := by
  unfold sendBuff
  simp [Conn.Write_res, hw, Conn.Write]

/-- Header written in full, BodyLength > 0, body writer succeeds. -/
theorem sendBuff_body_ok {σ : Type} (impl : ConnImpl σ) (headerBuff : List Byte)
    (bodyLength : Nat) (bodyWriterHandler : BodyWriter σ) (bridge : Bridge σ)
    (hw : (impl.write bridge.connection.st headerBuff).1 = (headerBuff.length, none))
    (hpos : 0 < bodyLength)
    (hb : (bodyWriterHandler (impl.write bridge.connection.st headerBuff).2).1 = none) :
    sendBuff impl headerBuff bodyLength bodyWriterHandler bridge
      = (none, ⟨⟨(bodyWriterHandler (impl.write bridge.connection.st headerBuff).2).2,
                 Event.bodyWriter :: Event.write headerBuff :: bridge.connection.log⟩⟩) := by
  unfold sendBuff
  simp [Conn.Write_res, hw, Conn.Write, hpos, callBodyWriter, hb]

/-- Header written in full, BodyLength > 0, body writer fails with `e`. -/
theorem sendBuff_body_err {σ : Type} (impl : ConnImpl σ) (headerBuff : List Byte)
    (bodyLength : Nat) (bodyWriterHandler : BodyWriter σ) (bridge : Bridge σ) (e : GoError)
    (hw : (impl.write bridge.connection.st headerBuff).1 = (headerBuff.length, none))
    (hpos : 0 < bodyLength)
    (hb : (bodyWriterHandler (impl.write bridge.connection.st headerBuff).2).1 = some e) :
    sendBuff impl headerBuff bodyLength bodyWriterHandler bridge
      = (some e,
         ⟨⟨(impl.close (bodyWriterHandler (impl.write bridge.connection.st headerBuff).2).2).2,
           Event.close :: Event.bodyWriter :: Event.write headerBuff
             :: bridge.connection.log⟩⟩) := by
  unfold sendBuff
  simp [Conn.Write_res, hw, Conn.Write, hpos, callBodyWriter, hb, closeLive_eq]

/-- Header write reports no error but a wrong count. -/
theorem sendBuff_short_write {σ : Type} (impl : ConnImpl σ) (headerBuff : List Byte)
    (bodyLength : Nat) (bodyWriterHandler : BodyWriter σ) (bridge : Bridge σ) (k : Nat)
    (hw : (impl.write bridge.connection.st headerBuff).1 = (k, none))
    (hk : k ≠ headerBuff.length) :
    sendBuff impl headerBuff bodyLength bodyWriterHandler bridge
      = (some GoError.SEND_HEAD_BYTES_ERROR,
         ⟨⟨(impl.close (impl.write bridge.connection.st headerBuff).2).2,
           Event.close :: Event.write headerBuff :: bridge.connection.log⟩⟩) := by
  unfold sendBuff
  simp [Conn.Write_res, hw, Conn.Write, hk, closeLive_eq]

/-! ## Headers that declare a metadata length of 2^63 or more -/

theorem uint64_lt (b : List Byte) : uint64 b < 2 ^ 64 := by
  have h : uint64 b = uint64 [b.getD 0 0, b.getD 1 0, b.getD 2 0, b.getD 3 0, b.getD 4 0,
      b.getD 5 0, b.getD 6 0, b.getD 7 0] := by
    simp [uint64]
  rw [h, uint64_eq_sum]
  have h0 := (b.getD 0 0).isLt
  have h1 := (b.getD 1 0).isLt
  have h2 := (b.getD 2 0).isLt
  have h3 := (b.getD 3 0).isLt
  have h4 := (b.getD 4 0).isLt
  have h5 := (b.getD 5 0).isLt
  have h6 := (b.getD 6 0).isLt
  have h7 := (b.getD 7 0).isLt
  norm_num
  omega

/-- On a pipe that delivers 18 header bytes declaring a metadata length of
`2^63` or more, `readHeadBytes` panics (in `make`, on the negative `int` the
length converts to), whatever follows the header; nothing is closed. -/
theorem readHeadBytes_pipe_huge (p : Pipe) (log : List Event) (fuel : Nat)
    (hd : Delivers p.incoming 18)
    (hml : 2 ^ 63 ≤ uint64 (slice (p.content.take 18) 2 10))
    (hf : 18 < fuel) :
    (readHeadBytes pipe fuel ⟨p, log⟩).1 = Exec.panic
    ∧ (readHeadBytes pipe fuel ⟨p, log⟩).2.st.closes = p.closes
    ∧ closeCalls (readHeadBytes pipe fuel ⟨p, log⟩).2.log = closeCalls log := by
  obtain ⟨p1, new1, heq1, _, _, hcl1, _, hr1⟩ :=
    ReadBytes.loop_pipe_delivers 18 fuel 0 (List.replicate 18 0) p log 0
      (Nat.zero_le _) (by simp) (by simpa using hd) (by omega)
  have hbuf1 : (List.replicate 18 (0 : Byte)).take 0 ++ p.content.take (18 - 0)
      ++ (List.replicate 18 (0 : Byte)).drop 18 = p.content.take 18 := by
    simp
  rw [hbuf1] at heq1
  have hneg : toInt (uint64 (slice (p.content.take 18) 2 10)) < 0 :=
    toInt_neg_of_ge _ hml (uint64_lt _)
  have hmeta : readMetaBytes pipe fuel (toInt (uint64 (slice (p.content.take 18) 2 10)))
      ⟨p1, new1 ++ log⟩ = (Exec.panic, ⟨p1, new1 ++ log⟩) := by
    simp [readMetaBytes, hneg]
  have hres : readHeadBytes pipe fuel ⟨p, log⟩ = (Exec.panic, ⟨p1, new1 ++ log⟩) := by
    simp only [readHeadBytes, ReadBytes, HeaderSize]
    rw [show ((18 : Nat) : Int) = ((18 : Nat) : Int) from rfl, heq1]
    simp only [true_and, if_true, hmeta]
  rw [hres]
  exact ⟨rfl, hcl1, closeCalls_reads new1 log hr1⟩

/-! ## Frames sent back to back -/

theorem SendRequest_headerBuff_length (m : Meta)
    (hop : m.Operation = O_CONNECT ∨ m.Operation = O_RESPONSE) :
    (SendRequest.headerBuff m).length = 18 + m.MetaBody.length := by
  simp only [SendRequest.headerBuff, List.length_append, convertLen2Bytes_length,
    operationHeadMap_length m.Operation hop]

/-- The client over a pipe: no error, and the bytes written are the frames in
order. -/
theorem sendFrames_pipe : ∀ (fs : List (Meta × List Byte)) (ps : Pipe) (logs : List Event),
    (∀ f ∈ fs, f.1.BodyLength = f.2.length) →
    (sendFrames fs ⟨⟨ps, logs⟩⟩).1 = none
    ∧ (sendFrames fs ⟨⟨ps, logs⟩⟩).2.connection.st.outgoing
        = ps.outgoing ++ (fs.map frameBytes).flatten := by
  intro fs
  induction fs with
  | nil => intro ps logs _; simp [sendFrames]
  | cons f fs ih =>
    intro ps logs hlen
    have hs := SendRequest_pipe ps logs f.1 f.2
    have hbody : (if f.1.BodyLength > 0 then f.2 else []) = f.2 := by
      have hl := hlen f (by simp)
      by_cases hpos : f.1.BodyLength > 0
      · simp [hpos]
      · have : f.2.length = 0 := by omega
        simp [hpos, List.length_eq_zero.mp this]
    rw [hbody] at hs
    unfold sendFrames
    rcases hres : Bridge.SendRequest pipe ⟨⟨ps, logs⟩⟩ f.1 (writeBody pipe f.2)
      with ⟨e, ⟨⟨p1, l1⟩⟩⟩
    rw [hres] at hs
    obtain ⟨he, hout⟩ := hs
    simp only [] at he hout
    subst he
    simp only []
    obtain ⟨h1, h2⟩ := ih p1 l1 (fun g hg => hlen g (by simp [hg]))
    refine ⟨h1, ?_⟩
    rw [h2, hout]
    simp [frameBytes]

/-- The echoing handler on a pipe whose next `b + j` bytes are deliverable,
for an envelope announcing `b` body bytes: it returns nil, has consumed exactly
`b` bytes and passed them on, and the next `j` bytes stay deliverable. -/
theorem echoHandler_pipe (fuel b j : Nat) (m : Meta) (p : Pipe) (hb : m.BodyLength = b)
    (hd : Delivers p.incoming (b + j)) (hf : b < fuel) :
    ∃ p4 : Pipe,
      echoHandler fuel Meta.BodyLength m p = (none, p4)
      ∧ p4.content = p.content.drop b
      ∧ p4.outgoing = p.outgoing ++ p.content.take b
      ∧ p4.closes = p.closes
      ∧ Delivers p4.incoming j := by
  obtain ⟨p3, new, heq, hc, ho, hcl, hd3, _⟩ :=
    ReadBytes.loop_pipe_delivers b fuel 0 (List.replicate b 0) p [] j
      (Nat.zero_le _) (by simp) (by simpa using hd) (by omega)
  have hbuf : (List.replicate b (0 : Byte)).take 0 ++ p.content.take (b - 0)
      ++ (List.replicate b (0 : Byte)).drop b = p.content.take b := by
    simp
  rw [hbuf] at heq
  refine ⟨{ p3 with outgoing := p3.outgoing ++ p.content.take b }, ?_, ?_, ?_, hcl, hd3⟩
  · simp only [echoHandler, hb, ReadBytes, heq]
    rfl
  · simpa [Pipe.content] using hc
  · simp [ho]

/-- The server on a pipe that holds a run of well-formed frames, all
deliverable: after as many `ReceiveRequest` calls as there are frames the
handler has been given the envelopes in the order of the frames, the bodies
have been passed on in that order, the stream is used up and nothing is
closed. -/
theorem serve_pipe (fuel : Nat) : ∀ (fs : List (Meta × List Byte)) (pr : Pipe)
    (logr : List Event),
    (∀ f ∈ fs, validFrame f) →
    (∀ f ∈ fs, 18 + f.1.MetaBody.length < fuel ∧ f.2.length < fuel) →
    pr.content = (fs.map frameBytes).flatten →
    Delivers pr.incoming ((fs.map frameBytes).flatten).length →
    (handlerCalls (serve fuel fs.length ⟨⟨pr, logr⟩⟩).connection.log).map envelopeOf
        = (fs.map (fun f => envelopeOf f.1)).reverse ++ (handlerCalls logr).map envelopeOf
    ∧ (serve fuel fs.length ⟨⟨pr, logr⟩⟩).connection.st.outgoing
        = pr.outgoing ++ (fs.map Prod.snd).flatten
    ∧ (serve fuel fs.length ⟨⟨pr, logr⟩⟩).connection.st.content = []
    ∧ (serve fuel fs.length ⟨⟨pr, logr⟩⟩).connection.st.closes = pr.closes
    ∧ closeCalls (serve fuel fs.length ⟨⟨pr, logr⟩⟩).connection.log = closeCalls logr := by
  intro fs
  induction fs with
  | nil =>
    intro pr logr _ _ hc _
    simp only [List.length_nil, serve, List.map_nil, List.flatten_nil, List.reverse_nil,
      List.nil_append, List.append_nil, true_and]
    simpa using hc
  | cons f fs ih =>
    intro pr logr hvalid hfuel hcontent hdel
    obtain ⟨hop, hml, hm63, hbl, hb63⟩ := hvalid f (by simp)
    obtain ⟨hf1, hf2⟩ := hfuel f (by simp)
    have h63 : (2 : Nat) ^ 63 = 9223372036854775808 := by norm_num
    have h64 : (2 : Nat) ^ 64 = 18446744073709551616 := by norm_num
    have hcontent1 : pr.content
        = SendRequest.headerBuff f.1 ++ (f.2 ++ (fs.map frameBytes).flatten) := by
      rw [hcontent]; simp [frameBytes]
    obtain ⟨d1, d2, d3, d4⟩ := frame_decode f.1 (f.2 ++ (fs.map frameBytes).flatten) hop
      (by omega) (by omega)
    rw [← hcontent1] at d1 d2 d3 d4
    have hlenw : ((List.map frameBytes (f :: fs)).flatten).length
        = 18 + f.1.metaLength + (f.2.length + ((fs.map frameBytes).flatten).length) := by
      simp only [List.map_cons, List.flatten_cons, List.length_append, frameBytes,
        SendRequest_headerBuff_length f.1 hop]
      omega
    rw [hlenw] at hdel
    obtain ⟨p2, new, m, heq, hm, hc2, ho2, hcl2, hd2, hr2⟩ :=
      ReceiveRequest_pipe pr logr fuel (f.2.length + ((fs.map frameBytes).flatten).length)
        (echoHandler fuel Meta.BodyLength)
        (by rw [d2]; omega) (by rw [d2]; exact hdel) (by rw [d2]; omega)
    rw [d1, d2, d3, d4] at hm
    have htake : (f.1.MetaBody ++ (f.2 ++ (fs.map frameBytes).flatten)).take f.1.metaLength
        = f.1.MetaBody := by
      rw [hml]; exact List.take_left' rfl
    rw [htake] at hm
    have hc2b : p2.content = f.2 ++ (fs.map frameBytes).flatten := by
      rw [hc2, d2, ← List.drop_drop, d4, hml]
      exact List.drop_left' rfl
    obtain ⟨p4, hecho, hc4, ho4, hcl4, hd4⟩ :=
      echoHandler_pipe fuel f.2.length ((fs.map frameBytes).flatten).length m p2
        (by rw [hm]; exact hbl) hd2 hf2
    rw [hecho] at heq
    simp only [] at heq
    have hc4b : p4.content = (fs.map frameBytes).flatten := by
      rw [hc4, hc2b]; exact List.drop_left' rfl
    have ho4b : p4.outgoing = pr.outgoing ++ f.2 := by
      rw [ho4, ho2, hc2b, List.take_left' rfl]
    obtain ⟨i1, i2, i3, i4, i5⟩ := ih p4 (Event.handler m :: (new ++ logr))
      (fun g hg => hvalid g (by simp [hg])) (fun g hg => hfuel g (by simp [hg])) hc4b hd4
    have hserve : serve fuel (f :: fs).length ⟨⟨pr, logr⟩⟩
        = serve fuel fs.length ⟨⟨p4, Event.handler m :: (new ++ logr)⟩⟩ := by
      simp only [List.length_cons, serve, heq]
    rw [hserve]
    refine ⟨?_, ?_, i3, ?_, ?_⟩
    · rw [i1]
      have hh : handlerCalls (Event.handler m :: (new ++ logr)) = m :: handlerCalls logr := by
        simp only [handlerCalls, handlerCalls_reads new logr hr2]
      rw [hh, hm]
      simp [envelopeOf]
    · rw [i2, ho4b]
      simp
    · rw [i4, hcl4, hcl2]
    · rw [i5]
      have : closeCalls (Event.handler m :: (new ++ logr)) = closeCalls (new ++ logr) := by
        simp [closeCalls, List.count_cons]
      rw [this, closeCalls_reads new logr hr2]

/-- The frame reader on a pipe that holds a well-formed frame followed by
anything: it returns the frame's tuple, has consumed exactly `18 + metaLen`
bytes, and the stream is left at the first body byte. -/
theorem readHeadBytes_frame (f : Meta × List Byte) (tail : List Byte) (p : Pipe)
    (log : List Event) (fuel : Nat) (hv : validFrame f)
    (hc : p.content = frameBytes f ++ tail)
    (hd : Delivers p.incoming (18 + f.1.metaLength))
    (hf : 18 + f.1.MetaBody.length < fuel) :
    ∃ (p2 : Pipe) (new : List Event),
      readHeadBytes pipe fuel ⟨p, log⟩
        = (Exec.ret ⟨f.1.Operation, f.1.metaLength, f.1.BodyLength, f.1.MetaBody, none⟩,
           ⟨p2, new ++ log⟩)
      ∧ p2.content = p.content.drop (18 + f.1.metaLength)
      ∧ p2.content = f.2 ++ tail := by
  obtain ⟨hop, hml, hm63, hbl, hb63⟩ := hv
  have h63 : (2 : Nat) ^ 63 = 9223372036854775808 := by norm_num
  have h64 : (2 : Nat) ^ 64 = 18446744073709551616 := by norm_num
  have hc1 : p.content = SendRequest.headerBuff f.1 ++ (f.2 ++ tail) := by
    rw [hc]; simp [frameBytes]
  obtain ⟨d1, d2, d3, d4⟩ := frame_decode f.1 (f.2 ++ tail) hop (by omega) (by omega)
  rw [← hc1] at d1 d2 d3 d4
  obtain ⟨p2, new, heq, hc2, _⟩ :=
    readHeadBytes_pipe p log fuel 0 (by rw [d2]; omega) (by rw [d2]; simpa using hd)
      (by rw [d2]; omega)
  rw [d1, d2, d3, d4] at heq
  have htake : (f.1.MetaBody ++ (f.2 ++ tail)).take f.1.metaLength = f.1.MetaBody := by
    rw [hml]; exact List.take_left' rfl
  rw [htake] at heq
  rw [d2] at hc2
  refine ⟨p2, new, heq, hc2, ?_⟩
  rw [hc2, ← List.drop_drop, d4, hml]
  exact List.drop_left' rfl

theorem writeCalls_append (a b : List Event) :
    writeCalls (a ++ b) = writeCalls a ++ writeCalls b := by
  induction a with
  | nil => rfl
  | cons e a ih => cases e <;> simp [writeCalls, ih]

/-- On a pipe that delivers 18 header bytes declaring a metadata length of
`2^63` or more, the frame reader and both receive operations panic after the
header, whatever follows it: the handler is not run and nothing is closed. -/
theorem Receive_pipe_huge (p : Pipe) (log : List Event) (fuel : Nat) (handler : Handler Pipe)
    (hd : Delivers p.incoming 18)
    (hml : 2 ^ 63 ≤ uint64 (slice (p.content.take 18) 2 10))
    (hf : 18 < fuel) :
    ∃ (p1 : Pipe) (new : List Event),
      readHeadBytes pipe fuel ⟨p, log⟩ = (Exec.panic, ⟨p1, new ++ log⟩)
      ∧ Bridge.ReceiveRequest pipe fuel ⟨⟨p, log⟩⟩ handler
          = (Exec.panic, ⟨⟨p1, new ++ log⟩⟩)
      ∧ Bridge.ReceiveResponse pipe fuel ⟨⟨p, log⟩⟩ handler
          = (Exec.panic, ⟨⟨p1, new ++ log⟩⟩)
      ∧ p1.closes = p.closes
      ∧ (∀ ev ∈ new, ev.isRead ∧ ¬ ev.isFailedRead) := by
  obtain ⟨p1, new1, heq1, _, _, hcl1, _, hr1⟩ :=
    ReadBytes.loop_pipe_delivers 18 fuel 0 (List.replicate 18 0) p log 0
      (Nat.zero_le _) (by simp) (by simpa using hd) (by omega)
  have hbuf1 : (List.replicate 18 (0 : Byte)).take 0 ++ p.content.take (18 - 0)
      ++ (List.replicate 18 (0 : Byte)).drop 18 = p.content.take 18 := by
    simp
  rw [hbuf1] at heq1
  have hneg : toInt (uint64 (slice (p.content.take 18) 2 10)) < 0 :=
    toInt_neg_of_ge _ hml (uint64_lt _)
  have hmeta : readMetaBytes pipe fuel (toInt (uint64 (slice (p.content.take 18) 2 10)))
      ⟨p1, new1 ++ log⟩ = (Exec.panic, ⟨p1, new1 ++ log⟩) := by
    simp [readMetaBytes, hneg]
  have hres : readHeadBytes pipe fuel ⟨p, log⟩ = (Exec.panic, ⟨p1, new1 ++ log⟩) := by
    simp only [readHeadBytes, ReadBytes, HeaderSize]
    rw [show ((18 : Nat) : Int) = ((18 : Nat) : Int) from rfl, heq1]
    simp only [true_and, if_true, hmeta]
  refine ⟨p1, new1, hres, ?_, ?_, hcl1, hr1⟩
  · simp only [Bridge.ReceiveRequest, hres]
  · simp only [Bridge.ReceiveResponse, hres]

/-- A pipe holding an 18-byte header in one chunk and a non-empty run of
bytes in a second one: the header is what the first 18 bytes are, and every
run of bytes the pipe holds is deliverable. -/
theorem header_then_tail (hdr tail : List Byte) (hh : hdr.length = 18) (ht : tail ≠ []) :
    (Pipe.ofChunks [Chunk.ok hdr, Chunk.ok tail]).content.take 18 = hdr
    ∧ (Pipe.ofChunks [Chunk.ok hdr, Chunk.ok tail]).content.length = 18 + tail.length
    ∧ ∀ k, k ≤ 18 + tail.length →
        Delivers (Pipe.ofChunks [Chunk.ok hdr, Chunk.ok tail]).incoming k := by
  have hc : (Pipe.ofChunks [Chunk.ok hdr, Chunk.ok tail]).content = hdr ++ tail := by
    simp only [Pipe.content, Pipe.ofChunks, Chunk.ok, List.map_cons, List.map_nil,
      List.flatten_cons, List.flatten_nil, List.append_nil]
  refine ⟨?_, ?_, ?_⟩
  · rw [hc, ← hh]; exact List.take_left' rfl
  · rw [hc, List.length_append, hh]
  · intro k hk
    apply Delivers_of_all_ok
    · intro c hcm
      simp only [Pipe.ofChunks, List.mem_cons, List.mem_singleton, List.not_mem_nil,
        or_false] at hcm
      rcases hcm with rfl | rfl
      · refine ⟨?_, rfl⟩
        intro h0
        have : hdr.length = 0 := by simp only [Chunk.ok] at h0; rw [h0]; rfl
        omega
      · exact ⟨ht, rfl⟩
    · have : ((List.map Chunk.bytes (Pipe.ofChunks [Chunk.ok hdr, Chunk.ok tail]).incoming).flatten)
          = hdr ++ tail := hc
      rw [this, List.length_append, hh]
      exact hk

/-! ## Claims -/

/-- C2 (wire layout): for every envelope whose Operation is registered, the
engine log of `SendRequest` gains exactly one `Write`, made before anything
else it does on the connection, and the buffer written is the registry tag of
the operation (`{1,1}` for O_CONNECT, `{1,2}` for O_RESPONSE), then metaLength
as 8 bytes big-endian, then BodyLength as 8 bytes big-endian, then the MetaBody
bytes; its length is `18 + len(MetaBody)`. -/
theorem SendRequest_wire_layout {σ : Type} (impl : ConnImpl σ) (bridge : Bridge σ)
    (request : Meta) (bodyWriterHandler : BodyWriter σ)
    (hop : request.Operation = O_CONNECT ∨ request.Operation = O_RESPONSE) :
    (∃ later : List Event,
      (Bridge.SendRequest impl bridge request bodyWriterHandler).2.connection.log
        = later ++ Event.write (registryTag request.Operation ++ bigEndian8 request.metaLength
            ++ bigEndian8 request.BodyLength ++ request.MetaBody) :: bridge.connection.log
      ∧ writeCalls later = [])
    ∧ (registryTag request.Operation ++ bigEndian8 request.metaLength
        ++ bigEndian8 request.BodyLength ++ request.MetaBody).length
        = 18 + request.MetaBody.length
    ∧ registryTag O_CONNECT = [1, 1] ∧ registryTag O_RESPONSE = [1, 2] := by
  refine ⟨?_, ?_, by decide, by decide⟩
  · rw [← SendRequest_headerBuff_registered request hop]
    exact sendBuff_log impl _ _ _ _
  · have ht : (registryTag request.Operation).length = 2 := by
      unfold registryTag; split <;> rfl
    simp only [List.length_append, bigEndian8_length, ht]

/-- Witness for C2: a CONNECT envelope with one metadata byte and a 3-byte
body sent over a pipe. -/
theorem SendRequest_wire_layout_witness :
    (O_CONNECT = O_CONNECT ∨ O_CONNECT = O_RESPONSE) ∧
    (∃ later : List Event,
      (Bridge.SendRequest pipe (NewBridge ⟨Pipe.ofChunks [], []⟩)
          ⟨O_CONNECT, 1, 3, [123], none⟩ (writeBody pipe [7, 8, 9])).2.connection.log
        = later ++ [Event.write [1, 1, 0, 0, 0, 0, 0, 0, 0, 1, 0, 0, 0, 0, 0, 0, 0, 3, 123]]
      ∧ writeCalls later = []) :=
  ⟨Or.inl rfl,
   (SendRequest_wire_layout pipe (NewBridge ⟨Pipe.ofChunks [], []⟩)
      ⟨O_CONNECT, 1, 3, [123], none⟩ (writeBody pipe [7, 8, 9]) (Or.inl rfl)).1⟩

/-- C3 (send symmetry), evaluation at the failing input: for the envelope
`{Operation: O_RESPONSE, metaLength: 1, BodyLength: 0, MetaBody: {123}}`
`SendResponse` writes the 18 header bytes only, while `SendRequest` writes the
header followed by the metadata byte. -/
theorem SendResponse_omits_MetaBody :
    writeCalls (Bridge.SendResponse pipe (NewBridge ⟨Pipe.ofChunks [], []⟩)
        ⟨O_RESPONSE, 1, 0, [123], none⟩ (writeBody pipe [])).2.connection.log
      = [[1, 2, 0, 0, 0, 0, 0, 0, 0, 1, 0, 0, 0, 0, 0, 0, 0, 0]]
    ∧ writeCalls (Bridge.SendRequest pipe (NewBridge ⟨Pipe.ofChunks [], []⟩)
        ⟨O_RESPONSE, 1, 0, [123], none⟩ (writeBody pipe [])).2.connection.log
      = [[1, 2, 0, 0, 0, 0, 0, 0, 0, 1, 0, 0, 0, 0, 0, 0, 0, 0, 123]] := by
  decide

/-- C4, counterexample: for the envelope `{Operation: 3}` (not registered, no
metadata, no body) over a pipe, `SendRequest` and `SendResponse` both return
nil and have written a 16-byte frame with an empty tag field. -/
theorem Send_unregistered_returns_nil :
    (Bridge.SendRequest pipe (NewBridge ⟨Pipe.ofChunks [], []⟩)
        ⟨3, 0, 0, [], none⟩ (writeBody pipe [])).1 = none
    ∧ (Bridge.SendRequest pipe (NewBridge ⟨Pipe.ofChunks [], []⟩)
        ⟨3, 0, 0, [], none⟩ (writeBody pipe [])).2.connection.st.outgoing
      = [0, 0, 0, 0, 0, 0, 0, 0, 0, 0, 0, 0, 0, 0, 0, 0]
    ∧ (Bridge.SendResponse pipe (NewBridge ⟨Pipe.ofChunks [], []⟩)
        ⟨3, 0, 0, [], none⟩ (writeBody pipe [])).1 = none
    ∧ (Bridge.SendResponse pipe (NewBridge ⟨Pipe.ofChunks [], []⟩)
        ⟨3, 0, 0, [], none⟩ (writeBody pipe [])).2.connection.st.outgoing
      = [0, 0, 0, 0, 0, 0, 0, 0, 0, 0, 0, 0, 0, 0, 0, 0] := by
  decide

/-- C4, amended: for every envelope whose Operation is not in the registry the
send operations make no registry check.  The one buffer they write has an
empty tag field: it begins directly with metaLength and BodyLength as 8
big-endian bytes each (in `SendRequest` these 16 bytes are followed by
MetaBody and nothing else; what `SendResponse` puts after them is left open).
When the connection accepts that buffer in full and the body writer, if
BodyLength > 0, reports no error, they return nil and do not close the
connection. -/
theorem Send_unregistered_empty_tag {σ : Type} (impl : ConnImpl σ) (bridge : Bridge σ)
    (m : Meta) (bodyWriterHandler : BodyWriter σ)
    (h1 : m.Operation ≠ O_CONNECT) (h2 : m.Operation ≠ O_RESPONSE) :
    (∃ later : List Event,
      (Bridge.SendRequest impl bridge m bodyWriterHandler).2.connection.log
        = later ++ Event.write (bigEndian8 m.metaLength ++ bigEndian8 m.BodyLength ++ m.MetaBody)
            :: bridge.connection.log
      ∧ writeCalls later = [])
    ∧ (∃ (later : List Event) (buf tail : List Byte),
      (Bridge.SendResponse impl bridge m bodyWriterHandler).2.connection.log
        = later ++ Event.write buf :: bridge.connection.log
      ∧ writeCalls later = []
      ∧ buf = bigEndian8 m.metaLength ++ bigEndian8 m.BodyLength ++ tail)
    ∧ ((impl.write bridge.connection.st
          (bigEndian8 m.metaLength ++ bigEndian8 m.BodyLength ++ m.MetaBody)).1
          = (16 + m.MetaBody.length, none) →
        (0 < m.BodyLength → (bodyWriterHandler (impl.write bridge.connection.st
          (bigEndian8 m.metaLength ++ bigEndian8 m.BodyLength ++ m.MetaBody)).2).1 = none) →
        (Bridge.SendRequest impl bridge m bodyWriterHandler).1 = none
        ∧ closeCalls (Bridge.SendRequest impl bridge m bodyWriterHandler).2.connection.log
            = closeCalls bridge.connection.log)
    ∧ (∀ (later : List Event) (buf : List Byte),
        (Bridge.SendResponse impl bridge m bodyWriterHandler).2.connection.log
          = later ++ Event.write buf :: bridge.connection.log →
        writeCalls later = [] →
        (impl.write bridge.connection.st buf).1 = (buf.length, none) →
        (0 < m.BodyLength → (bodyWriterHandler (impl.write bridge.connection.st buf).2).1 = none) →
        (Bridge.SendResponse impl bridge m bodyWriterHandler).1 = none
        ∧ closeCalls (Bridge.SendResponse impl bridge m bodyWriterHandler).2.connection.log
            = closeCalls bridge.connection.log) := by
  refine ⟨?_, ?_, ?_, ?_⟩
  · rw [← SendRequest_headerBuff_unregistered m h1 h2]
    exact sendBuff_log impl _ _ _ _
  · obtain ⟨later, hlog, hw⟩ := sendBuff_log impl (SendResponse.headerBuff m) m.BodyLength
      bodyWriterHandler bridge
    refine ⟨later, SendResponse.headerBuff m, [], hlog, hw, ?_⟩
    rw [SendResponse_headerBuff_unregistered m h1 h2, List.append_nil]
  · intro hw hb
    rw [← SendRequest_headerBuff_unregistered m h1 h2] at hw hb
    refine sendBuff_ok impl _ _ _ _ ?_ hb
    rw [hw, SendRequest_headerBuff_unregistered m h1 h2]
    simp only [List.length_append, bigEndian8_length]
  · intro later buf hlog hnw hw hb
    obtain ⟨later1, hlog1, hnw1⟩ := sendBuff_log impl (SendResponse.headerBuff m) m.BodyLength
      bodyWriterHandler bridge
    have hbuf : buf = SendResponse.headerBuff m := by
      have h3 : writeCalls (later ++ Event.write buf :: bridge.connection.log)
          = writeCalls (later1 ++ Event.write (SendResponse.headerBuff m)
              :: bridge.connection.log) := by
        rw [← hlog, ← hlog1]; rfl
      rw [writeCalls_append, writeCalls_append, hnw, hnw1] at h3
      simp only [writeCalls, List.nil_append, List.cons.injEq] at h3
      exact h3.1
    subst hbuf
    exact sendBuff_ok impl _ _ _ _ hw hb

/-- Witness for C4 (amended): operation 7 with one metadata byte and a
two-byte body, sent over a pipe. -/
theorem Send_unregistered_empty_tag_witness :
    ((7 : Int) ≠ O_CONNECT ∧ (7 : Int) ≠ O_RESPONSE)
    ∧ (Bridge.SendRequest pipe (NewBridge ⟨Pipe.ofChunks [], []⟩)
        ⟨7, 1, 2, [123], none⟩ (writeBody pipe [5, 6])).1 = none
    ∧ (Bridge.SendResponse pipe (NewBridge ⟨Pipe.ofChunks [], []⟩)
        ⟨7, 1, 2, [123], none⟩ (writeBody pipe [5, 6])).1 = none :=
  ⟨⟨by decide, by decide⟩,
   ((Send_unregistered_empty_tag pipe (NewBridge ⟨Pipe.ofChunks [], []⟩)
      ⟨7, 1, 2, [123], none⟩ (writeBody pipe [5, 6]) (by decide) (by decide)).2.2.1
      (by decide) (fun _ => by decide)).1,
   ((Send_unregistered_empty_tag pipe (NewBridge ⟨Pipe.ofChunks [], []⟩)
      ⟨7, 1, 2, [123], none⟩ (writeBody pipe [5, 6]) (by decide) (by decide)).2.2.2
      [Event.bodyWriter] (SendResponse.headerBuff ⟨7, 1, 2, [123], none⟩)
      (by decide) (by decide) (by decide) (fun _ => by decide)).1⟩

/-- C5 (envelope builder): for every operation, metadata value and bodyLen,
`NewRequest` returns OPERATION_NOT_SUPPORT_ERROR and no envelope when the
operation is not in the registry, and the serializer is not run (its state is
untouched); when the operation is registered and the serializer succeeds with
bytes `s`, it returns the envelope with Operation = operation,
metaLength = len(s), BodyLength = bodyLen, MetaBody = s and Err = nil. -/
theorem NewRequest_spec {α τ : Type} (marshal : α → τ → Except GoError (List Byte) × τ)
    (operation : Int) (v : α) (bodyLen : Nat) (t : τ) :
    (operation ≠ O_CONNECT → operation ≠ O_RESPONSE →
      NewRequest marshal operation v bodyLen t
        = (Except.error GoError.OPERATION_NOT_SUPPORT_ERROR, t))
    ∧ (∀ (s : List Byte) (t1 : τ), (operation = O_CONNECT ∨ operation = O_RESPONSE) →
        marshal v t = (Except.ok s, t1) → s.length < 2 ^ 63 →
        NewRequest marshal operation v bodyLen t
          = (Except.ok { Operation := operation, metaLength := s.length, BodyLength := bodyLen,
                         MetaBody := s, Err := none }, t1)) := by
  constructor
  · intro h1 h2
    simp [NewRequest, operationHeadMap_unregistered operation h1 h2]
  · intro s t1 hop hm hlen
    have hreg : operationHeadMap operation ≠ none := by
      rw [Ne, operationHeadMap_eq_none_iff]
      rcases hop with h | h <;> simp [h]
    have hlt : s.length < 18446744073709551616 := by
      have h63 : (2 : Nat) ^ 63 = 9223372036854775808 := by norm_num
      omega
    simp [NewRequest, hreg, hm, Nat.mod_eq_of_lt hlt]

/-- Witness for C5: operation 9 is rejected without running the serializer
(which here counts its calls), and CONNECT with a serializer producing the
bytes `{}` gives the envelope. -/
theorem NewRequest_spec_witness :
    NewRequest (fun (_ : Unit) (k : Nat) => (Except.ok [123, 125], k + 1)) 9 () 4 0
      = (Except.error GoError.OPERATION_NOT_SUPPORT_ERROR, 0)
    ∧ NewRequest (fun (_ : Unit) (k : Nat) => (Except.ok [123, 125], k + 1)) O_CONNECT () 4 0
      = (Except.ok ⟨O_CONNECT, 2, 4, [123, 125], none⟩, 1) :=
  ⟨(NewRequest_spec (fun (_ : Unit) (k : Nat) => (Except.ok [123, 125], k + 1)) 9 () 4 0).1
      (by decide) (by decide),
   (NewRequest_spec (fun (_ : Unit) (k : Nat) => (Except.ok [123, 125], k + 1)) O_CONNECT () 4 0).2
      [123, 125] 1 (Or.inl rfl) rfl (by norm_num)⟩

/-- C6 (envelope invariant), evaluation at the failing input: on the frame
`CONNECT, metaLen 1, bodyLen 0, metadata {123}` the handler of
`ReceiveRequest` is given an envelope with MetaBody of length 1 and
metaLength 0, while the handler of `ReceiveResponse` is given metaLength 1. -/
theorem ReceiveRequest_drops_metaLength :
    handlerCalls (Bridge.ReceiveRequest pipe 20
        (NewBridge ⟨Pipe.ofChunks
          [Chunk.ok [1, 1, 0, 0, 0, 0, 0, 0, 0, 1, 0, 0, 0, 0, 0, 0, 0, 0, 123]], []⟩)
        (fun _ s => (none, s))).2.connection.log
      = [⟨O_CONNECT, 0, 0, [123], none⟩]
    ∧ handlerCalls (Bridge.ReceiveResponse pipe 20
        (NewBridge ⟨Pipe.ofChunks
          [Chunk.ok [1, 1, 0, 0, 0, 0, 0, 0, 0, 1, 0, 0, 0, 0, 0, 0, 0, 0, 123]], []⟩)
        (fun _ s => (none, s))).2.connection.log
      = [⟨O_CONNECT, 1, 0, [123], none⟩] := by
  decide

/-- C9 (read-exact forward progress): with a reader that never reports more
bytes than the length of the slice it was given, every iteration of the loop
of `ReadBytes` that does not leave the loop (by break, failure or panic)
strictly increases the number of accumulated bytes; hence for every `len`
the call ends within `len + 1` iterations and makes at most `len` calls to
`Read`. -/
theorem ReadBytes_forward_progress {σ : Type} (impl : ConnImpl σ)
    (hrd : ∀ s size, (impl.read s size).1.n ≤ size) (len : Int) :
    (∀ (read : Nat) (buff : List Byte) (conn : Conn σ) (r : Nat) (b : List Byte) (c : Conn σ),
        ReadBytes.body impl len read buff conn = Iter.next r b c → read < r)
    ∧ (∀ (fuel : Nat) (buff : List Byte) (conn : Conn σ), len.toNat < fuel →
        (ReadBytes impl fuel buff len conn).1 ≠ Exec.fuelOut
        ∧ readCalls (ReadBytes impl fuel buff len conn).2.2.log
            ≤ readCalls conn.log + len.toNat) := by
  constructor
  · intro read buff conn r b c h
    exact ReadBytes.body_next_lt impl hrd len read buff conn r b c h
  · intro fuel buff conn hf
    exact ReadBytes.loop_terminates impl hrd len fuel 0 buff conn (by omega)

/-- Witness for C9: three bytes read from a pipe that delivers them in two
chunks. -/
theorem ReadBytes_forward_progress_witness :
    (∀ s size, (pipe.read s size).1.n ≤ size)
    ∧ (ReadBytes pipe 4 [0, 0, 0] 3
        ⟨Pipe.ofChunks [Chunk.ok [1], Chunk.ok [2, 3, 4]], []⟩).1 ≠ Exec.fuelOut
    ∧ readCalls (ReadBytes pipe 4 [0, 0, 0] 3
        ⟨Pipe.ofChunks [Chunk.ok [1], Chunk.ok [2, 3, 4]], []⟩).2.2.log ≤ 0 + 3 :=
  ⟨Pipe.read_n_le,
   (ReadBytes_forward_progress pipe Pipe.read_n_le 3).2 4 [0, 0, 0]
     ⟨Pipe.ofChunks [Chunk.ok [1], Chunk.ok [2, 3, 4]], []⟩ (by decide)⟩

/-- C7 (read-exact success): for every `n`, every buffer of length at least
`n` and every pipe whose next `n` bytes are delivered by error-free reads that
each return at least one byte (whatever the chunk sizes), `ReadBytes(buff, n,
conn)` with fuel above `n` returns `(n, nil)`; the buffer then holds those `n`
bytes in order in `buff[0:n]` (the rest is unchanged), exactly `n` bytes have
been consumed from the stream, and `Close` has not been called. -/
theorem ReadBytes_success (n : Nat) (buff : List Byte) (p : Pipe) (log : List Event) (fuel : Nat)
    (hbuf : n ≤ buff.length) (hd : Delivers p.incoming n) (hf : n < fuel) :
    ∃ (p1 : Pipe) (new : List Event),
      ReadBytes pipe fuel buff (n : Int) ⟨p, log⟩
        = (Exec.ret ((n : Int), none), p.content.take n ++ buff.drop n, ⟨p1, new ++ log⟩)
      ∧ (p.content.take n).length = n
      ∧ p1.content = p.content.drop n
      ∧ p1.closes = p.closes
      ∧ closeCalls (new ++ log) = closeCalls log := by
  obtain ⟨p1, new, heq, h1, _, h3, _, h5⟩ :=
    ReadBytes.loop_pipe_delivers n fuel 0 buff p log 0 (Nat.zero_le _) hbuf (by simpa using hd)
      (by omega)
  refine ⟨p1, new, ?_, ?_, by simpa using h1, h3, closeCalls_reads new log h5⟩
  · simpa [ReadBytes] using heq
  · have := Delivers_length p.incoming n hd
    simp only [Pipe.content, List.length_take]
    omega

/-- Witness for C7: three bytes read into a 4-byte buffer from a pipe that
delivers `{1}` and then `{2,3,4}`. -/
theorem ReadBytes_success_witness :
    ∃ (p1 : Pipe) (new : List Event),
      ReadBytes pipe 5 [0, 0, 0, 9] ((3 : Nat) : Int)
          ⟨Pipe.ofChunks [Chunk.ok [1], Chunk.ok [2, 3, 4]], []⟩
        = (Exec.ret (((3 : Nat) : Int), none),
           (Pipe.ofChunks [Chunk.ok [1], Chunk.ok [2, 3, 4]]).content.take 3
             ++ ([0, 0, 0, 9] : List Byte).drop 3, ⟨p1, new ++ []⟩)
      ∧ ((Pipe.ofChunks [Chunk.ok [1], Chunk.ok [2, 3, 4]]).content.take 3).length = 3
      ∧ p1.content = (Pipe.ofChunks [Chunk.ok [1], Chunk.ok [2, 3, 4]]).content.drop 3
      ∧ p1.closes = (Pipe.ofChunks [Chunk.ok [1], Chunk.ok [2, 3, 4]]).closes
      ∧ closeCalls (new ++ []) = closeCalls [] :=
  ReadBytes_success 3 [0, 0, 0, 9] (Pipe.ofChunks [Chunk.ok [1], Chunk.ok [2, 3, 4]]) [] 5
    (by decide) (by simp [Delivers, Pipe.ofChunks, Chunk.ok]) (by decide)

/-- C8 (read-exact failure): on any connection, if one of the reads that
`ReadBytes` makes returns zero bytes or signals end-of-stream, then
`ReadBytes` returns `(0, READ_ERROR)`, that read was its last one, and the
last call it made on the connection is `Close`. -/
theorem ReadBytes_failure {σ : Type} (impl : ConnImpl σ) (fuel : Nat) (buff : List Byte)
    (n : Int) (conn : Conn σ) (new : List Event)
    (hlog : (ReadBytes impl fuel buff n conn).2.2.log = new ++ conn.log)
    (hfail : ∃ ev ∈ new, ev.isFailedRead) :
    (ReadBytes impl fuel buff n conn).1 = Exec.ret (0, some GoError.READ_ERROR)
    ∧ ∃ ev rest, new = Event.close :: ev :: rest ∧ ev.isFailedRead
        ∧ ∀ e ∈ rest, e.isRead ∧ ¬ e.isFailedRead := by
  obtain ⟨new1, hnew1, hcases⟩ := ReadBytes.loop_trace impl n fuel 0 buff conn
  have hsame : new1 = new := by
    have : new1 ++ conn.log = new ++ conn.log := by
      rw [← hnew1]; exact hlog
    exact List.append_cancel_right this
  subst hsame
  rcases hcases with h | ⟨_, hall⟩
  · exact h
  · obtain ⟨ev, hmem, hev⟩ := hfail
    exact absurd hev (hall ev hmem).2

/-- Witness for C8: three bytes asked from a pipe that delivers one byte and
then ends. -/
theorem ReadBytes_failure_witness :
    (ReadBytes pipe 5 [0, 0, 0] 3 ⟨Pipe.ofChunks [Chunk.ok [1]], []⟩).1
      = Exec.ret (0, some GoError.READ_ERROR)
    ∧ ∃ ev rest, [Event.close, Event.read 2 0 (some GoError.EOF), Event.read 3 1 none]
        = Event.close :: ev :: rest ∧ ev.isFailedRead
        ∧ ∀ e ∈ rest, e.isRead ∧ ¬ e.isFailedRead :=
  ReadBytes_failure pipe 5 [0, 0, 0] 3 ⟨Pipe.ofChunks [Chunk.ok [1]], []⟩
    [Event.close, Event.read 2 0 (some GoError.EOF), Event.read 3 1 none]
    (by decide) ⟨Event.read 2 0 (some GoError.EOF), by simp, Or.inl rfl⟩

/-- C1 (request round trip): for every registered operation `op`, every
metadata byte string `m` with `len(m) < 2^63`, every body length `b` and every
body of exactly `b` bytes: `SendRequest` on the envelope
`{Operation: op, metaLength: len(m), BodyLength: b, MetaBody: m}` with a body
writer that writes the body returns nil, and when the bytes it wrote reach the
peer in any chunking `cs` in which every chunk is non-empty and error-free,
`ReceiveRequest` (with fuel above `18 + len(m)`) runs its handler exactly once,
on an envelope with Operation = op, BodyLength = b and MetaBody = m and on a
stream whose remaining bytes are exactly the body; it makes no other call than
successful reads and closes nothing. -/
theorem request_round_trip (op : Int) (m body : List Byte) (b : Nat)
    (ps : Pipe) (logs : List Event) (cs : List Chunk) (pr : Pipe) (logr : List Event)
    (fuel : Nat) (handler : Handler Pipe)
    (hop : op = O_CONNECT ∨ op = O_RESPONSE)
    (hm : m.length < 2 ^ 63) (hb : b < 2 ^ 64) (hbody : body.length = b)
    (hok : ∀ c ∈ cs, c.bytes ≠ [] ∧ c.err = none)
    (hwire : (Bridge.SendRequest pipe ⟨⟨ps, logs⟩⟩ ⟨op, m.length, b, m, none⟩
        (writeBody pipe body)).2.connection.st.outgoing
      = ps.outgoing ++ (cs.map Chunk.bytes).flatten)
    (hin : pr.incoming = cs)
    (hf : 18 + m.length < fuel) :
    (Bridge.SendRequest pipe ⟨⟨ps, logs⟩⟩ ⟨op, m.length, b, m, none⟩ (writeBody pipe body)).1 = none
    ∧ ∃ (p2 : Pipe) (new : List Event) (e : Meta),
        Bridge.ReceiveRequest pipe fuel ⟨⟨pr, logr⟩⟩ handler
          = (Exec.ret (handler e p2).1,
             ⟨⟨(handler e p2).2, Event.handler e :: (new ++ logr)⟩⟩)
        ∧ e.Operation = op ∧ e.BodyLength = b ∧ e.MetaBody = m
        ∧ p2.content = body
        ∧ p2.closes = pr.closes
        ∧ (∀ ev ∈ new, ev.isRead ∧ ¬ ev.isFailedRead) := by
  have hsend := SendRequest_pipe ps logs ⟨op, m.length, b, m, none⟩ body
  refine ⟨hsend.1, ?_⟩
  have hbody2 : (if b > 0 then body else []) = body := by
    by_cases hpos : b > 0
    · simp [hpos]
    · have : body.length = 0 := by omega
      simp [hpos, List.length_eq_zero.mp this]
  have hcontent : pr.content = SendRequest.headerBuff ⟨op, m.length, b, m, none⟩ ++ body := by
    have h1 := hsend.2
    rw [hwire] at h1
    simp only [hbody2, List.append_assoc] at h1
    have h2 := List.append_cancel_left h1
    simp only [Pipe.content, hin, h2]
  have h63 : (2 : Nat) ^ 63 = 9223372036854775808 := by norm_num
  have h64 : (2 : Nat) ^ 64 = 18446744073709551616 := by norm_num
  obtain ⟨d1, d2, d3, d4⟩ := frame_decode ⟨op, m.length, b, m, none⟩ body hop (by simp only; omega)
    (by simpa using hb)
  simp only [] at d1 d2 d3 d4
  rw [← hcontent] at d1 d2 d3 d4
  have hlenc : pr.content.length = 18 + m.length + body.length := by
    have := congrArg List.length d4
    have h18 : 18 ≤ pr.content.length := by
      rw [hcontent]
      simp only [SendRequest.headerBuff, List.length_append, convertLen2Bytes_length,
        operationHeadMap_length op hop]
      omega
    simp only [List.length_drop, List.length_append] at this
    omega
  have hd : Delivers pr.incoming (18 + uint64 (slice (pr.content.take 18) 2 10) + 0) := by
    rw [d2, hin]
    apply Delivers_of_all_ok cs _ hok
    have : ((cs.map Chunk.bytes).flatten).length = pr.content.length := by
      simp [Pipe.content, hin]
    omega
  obtain ⟨p2, new, e, heq, he, hc, _, hcl, _, hr⟩ :=
    ReceiveRequest_pipe pr logr fuel 0 handler (by rw [d2]; exact hm) hd (by rw [d2]; exact hf)
  rw [d1, d2, d3, d4] at he
  have hmeta : (m ++ body).take m.length = m := List.take_left' rfl
  rw [hmeta] at he
  refine ⟨p2, new, e, heq, by rw [he], by rw [he], by rw [he], ?_, hcl, hr⟩
  rw [hc, d2, ← List.drop_drop, d4]
  exact List.drop_left' rfl

/-- Witness for C1: a CONNECT request with metadata `{}` and a 3-byte body,
delivered to the peer in four chunks that cut across header, metadata and
body. -/
theorem request_round_trip_witness :
    (Bridge.SendRequest pipe ⟨⟨Pipe.ofChunks [], []⟩⟩
        ⟨O_CONNECT, ([123, 125] : List Byte).length, 3, [123, 125], none⟩
        (writeBody pipe [7, 8, 9])).1 = none
    ∧ ∃ (p2 : Pipe) (new : List Event) (e : Meta),
        Bridge.ReceiveRequest pipe 25
            ⟨⟨Pipe.ofChunks [Chunk.ok [1, 1, 0, 0, 0],
                Chunk.ok [0, 0, 0, 0, 2, 0, 0, 0, 0, 0, 0, 0, 3, 123],
                Chunk.ok [125, 7], Chunk.ok [8, 9]], []⟩⟩
            (fun _ s => (none, s))
          = (Exec.ret ((fun (_ : Meta) (s : Pipe) => ((none : Option GoError), s)) e p2).1,
             ⟨⟨((fun (_ : Meta) (s : Pipe) => ((none : Option GoError), s)) e p2).2,
               Event.handler e :: (new ++ [])⟩⟩)
        ∧ e.Operation = O_CONNECT ∧ e.BodyLength = 3 ∧ e.MetaBody = [123, 125]
        ∧ p2.content = [7, 8, 9]
        ∧ p2.closes = (Pipe.ofChunks [Chunk.ok [1, 1, 0, 0, 0],
                Chunk.ok [0, 0, 0, 0, 2, 0, 0, 0, 0, 0, 0, 0, 3, 123],
                Chunk.ok [125, 7], Chunk.ok [8, 9]]).closes
        ∧ (∀ ev ∈ new, ev.isRead ∧ ¬ ev.isFailedRead) :=
  request_round_trip O_CONNECT [123, 125] [7, 8, 9] 3 (Pipe.ofChunks []) []
    [Chunk.ok [1, 1, 0, 0, 0], Chunk.ok [0, 0, 0, 0, 2, 0, 0, 0, 0, 0, 0, 0, 3, 123],
      Chunk.ok [125, 7], Chunk.ok [8, 9]]
    (Pipe.ofChunks [Chunk.ok [1, 1, 0, 0, 0],
      Chunk.ok [0, 0, 0, 0, 2, 0, 0, 0, 0, 0, 0, 0, 3, 123], Chunk.ok [125, 7], Chunk.ok [8, 9]])
    [] 25 (fun _ s => (none, s))
    (Or.inl rfl) (by norm_num) (by norm_num) rfl
    (by simp [Chunk.ok]) (by decide) rfl (by decide)

/-- C10 (truncated frame), evaluation at the failing input: on a stream that
delivers the 18 header bytes `{1,1, 0x80,0,0,0,0,0,0,0, 0,0,0,0,0,0,0,0}`
(declared metaLen `2^63`) and then ends, `ReceiveRequest` and
`ReceiveResponse` panic in `readMetaBytes` (`make` with a negative length):
they do not return READ_ERROR and `Close` is not called. -/
theorem Receive_truncated_panics :
    (Bridge.ReceiveRequest pipe 30
        ⟨⟨Pipe.ofChunks [Chunk.ok [1, 1, 128, 0, 0, 0, 0, 0, 0, 0, 0, 0, 0, 0, 0, 0, 0, 0]], []⟩⟩
        (fun _ s => (none, s))).1 = Exec.panic
    ∧ closeCalls (Bridge.ReceiveRequest pipe 30
        ⟨⟨Pipe.ofChunks [Chunk.ok [1, 1, 128, 0, 0, 0, 0, 0, 0, 0, 0, 0, 0, 0, 0, 0, 0, 0]], []⟩⟩
        (fun _ s => (none, s))).2.connection.log = 0
    ∧ (Bridge.ReceiveResponse pipe 30
        ⟨⟨Pipe.ofChunks [Chunk.ok [1, 1, 128, 0, 0, 0, 0, 0, 0, 0, 0, 0, 0, 0, 0, 0, 0, 0]], []⟩⟩
        (fun _ s => (none, s))).1 = Exec.panic
    ∧ closeCalls (Bridge.ReceiveResponse pipe 30
        ⟨⟨Pipe.ofChunks [Chunk.ok [1, 1, 128, 0, 0, 0, 0, 0, 0, 0, 0, 0, 0, 0, 0, 0, 0, 0]], []⟩⟩
        (fun _ s => (none, s))).2.connection.log = 0 := by
  decide

/-- C12 (registry is a bidirectional mapping): in whatever order the registry
entries are iterated, `retrieveOperation(t)` is O_CONNECT for `t = {1,1}`,
O_RESPONSE for `t = {1,2}` and 0 otherwise (and so is the scan in the
canonical order used by the frame reader); in particular
`retrieveOperation(operationHeadMap[op]) = op` for every registered `op`, the
registered tags are 2 bytes long, and distinct operations have distinct
tags. -/
theorem retrieveOperation_registry (order : List (Int × List Byte))
    (hperm : order.Perm operationHeadEntries) :
    (∀ t : List Byte,
      retrieveOperationIn order t
        = (if t = [1, 1] then O_CONNECT else if t = [1, 2] then O_RESPONSE else 0)
      ∧ retrieveOperation t = retrieveOperationIn order t)
    ∧ (∀ (op : Int) (tag : List Byte), operationHeadMap op = some tag →
        retrieveOperationIn order tag = op ∧ tag.length = 2)
    ∧ (∀ (op1 op2 : Int) (tag : List Byte), operationHeadMap op1 = some tag →
        operationHeadMap op2 = some tag → op1 = op2) := by
  refine ⟨?_, ?_, ?_⟩
  · intro t
    refine ⟨retrieveOperationIn_perm order hperm t, ?_⟩
    rw [retrieveOperationIn_perm order hperm t]
    exact retrieveOperationIn_perm operationHeadEntries (List.Perm.refl _) t
  · intro op tag h
    rw [retrieveOperationIn_perm order hperm tag]
    rcases operationHeadMap_eq_some op tag h with ⟨h1, h2⟩ | ⟨h1, h2⟩
    · subst h1 h2; exact ⟨by decide, rfl⟩
    · subst h1 h2; exact ⟨by decide, rfl⟩
  · intro op1 op2 tag h1 h2
    rcases operationHeadMap_eq_some op1 tag h1 with ⟨a1, a2⟩ | ⟨a1, a2⟩ <;>
    rcases operationHeadMap_eq_some op2 tag h2 with ⟨b1, b2⟩ | ⟨b1, b2⟩
    · rw [a1, b1]
    · rw [a2] at b2; exact absurd b2 (by decide)
    · rw [a2] at b2; exact absurd b2 (by decide)
    · rw [a1, b1]

/-- Witness for C12: the registry iterated with RESPONSE first. -/
theorem retrieveOperation_registry_witness :
    retrieveOperationIn [(O_RESPONSE, [1, 2]), (O_CONNECT, [1, 1])] [1, 1] = O_CONNECT
    ∧ retrieveOperationIn [(O_RESPONSE, [1, 2]), (O_CONNECT, [1, 1])] [1, 2] = O_RESPONSE
    ∧ retrieveOperationIn [(O_RESPONSE, [1, 2]), (O_CONNECT, [1, 1])] [3, 4] = 0 :=
  ⟨((retrieveOperation_registry [(O_RESPONSE, [1, 2]), (O_CONNECT, [1, 1])]
      (List.Perm.swap _ _ _)).1 [1, 1]).1,
   ((retrieveOperation_registry [(O_RESPONSE, [1, 2]), (O_CONNECT, [1, 1])]
      (List.Perm.swap _ _ _)).1 [1, 2]).1,
   ((retrieveOperation_registry [(O_RESPONSE, [1, 2]), (O_CONNECT, [1, 1])]
      (List.Perm.swap _ _ _)).1 [3, 4]).1⟩

/-- C13 (body callback gating on send): for every envelope whose header
write succeeds in full, `SendRequest` and `SendResponse` run the body writer
exactly once when BodyLength > 0, after the header write and on the
connection as that write left it: they return what it reports, and the
connection afterwards is the one the body writer left (closed on top of that
when it reported an error).  When BodyLength = 0 they do not run it at all,
whatever it is, and return nil. -/
theorem Send_body_writer_gating {σ : Type} (impl : ConnImpl σ) (bridge : Bridge σ) (m : Meta)
    (bodyWriterHandler : BodyWriter σ) :
    ((impl.write bridge.connection.st (SendRequest.headerBuff m)).1
        = ((SendRequest.headerBuff m).length, none) →
      (0 < m.BodyLength →
        (Bridge.SendRequest impl bridge m bodyWriterHandler).1
          = (bodyWriterHandler (impl.write bridge.connection.st (SendRequest.headerBuff m)).2).1
        ∧ (Bridge.SendRequest impl bridge m bodyWriterHandler).2.connection.st
          = (if (bodyWriterHandler (impl.write bridge.connection.st (SendRequest.headerBuff m)).2).1 = none
             then (bodyWriterHandler (impl.write bridge.connection.st (SendRequest.headerBuff m)).2).2
             else (impl.close
               (bodyWriterHandler (impl.write bridge.connection.st (SendRequest.headerBuff m)).2).2).2)
        ∧ (Bridge.SendRequest impl bridge m bodyWriterHandler).2.connection.log
          = (if (bodyWriterHandler (impl.write bridge.connection.st (SendRequest.headerBuff m)).2).1 = none
             then [] else [Event.close])
            ++ Event.bodyWriter :: Event.write (SendRequest.headerBuff m) :: bridge.connection.log
        ∧ bodyWriterCalls (Bridge.SendRequest impl bridge m bodyWriterHandler).2.connection.log
          = bodyWriterCalls bridge.connection.log + 1
        ∧ ∃ later : List Event,
            (Bridge.SendRequest impl bridge m bodyWriterHandler).2.connection.log
              = later ++ Event.bodyWriter :: Event.write (SendRequest.headerBuff m)
                  :: bridge.connection.log
            ∧ bodyWriterCalls later = 0)
      ∧ (m.BodyLength = 0 → ∀ w : BodyWriter σ,
          Bridge.SendRequest impl bridge m w
            = (none, ⟨⟨(impl.write bridge.connection.st (SendRequest.headerBuff m)).2,
                       Event.write (SendRequest.headerBuff m) :: bridge.connection.log⟩⟩)))
    ∧ ((impl.write bridge.connection.st (SendResponse.headerBuff m)).1
        = ((SendResponse.headerBuff m).length, none) →
      (0 < m.BodyLength →
        (Bridge.SendResponse impl bridge m bodyWriterHandler).1
          = (bodyWriterHandler (impl.write bridge.connection.st (SendResponse.headerBuff m)).2).1
        ∧ (Bridge.SendResponse impl bridge m bodyWriterHandler).2.connection.st
          = (if (bodyWriterHandler (impl.write bridge.connection.st (SendResponse.headerBuff m)).2).1 = none
             then (bodyWriterHandler (impl.write bridge.connection.st (SendResponse.headerBuff m)).2).2
             else (impl.close
               (bodyWriterHandler (impl.write bridge.connection.st (SendResponse.headerBuff m)).2).2).2)
        ∧ (Bridge.SendResponse impl bridge m bodyWriterHandler).2.connection.log
          = (if (bodyWriterHandler (impl.write bridge.connection.st (SendResponse.headerBuff m)).2).1 = none
             then [] else [Event.close])
            ++ Event.bodyWriter :: Event.write (SendResponse.headerBuff m) :: bridge.connection.log
        ∧ bodyWriterCalls (Bridge.SendResponse impl bridge m bodyWriterHandler).2.connection.log
          = bodyWriterCalls bridge.connection.log + 1
        ∧ ∃ later : List Event,
            (Bridge.SendResponse impl bridge m bodyWriterHandler).2.connection.log
              = later ++ Event.bodyWriter :: Event.write (SendResponse.headerBuff m)
                  :: bridge.connection.log
            ∧ bodyWriterCalls later = 0)
      ∧ (m.BodyLength = 0 → ∀ w : BodyWriter σ,
          Bridge.SendResponse impl bridge m w
            = (none, ⟨⟨(impl.write bridge.connection.st (SendResponse.headerBuff m)).2,
                       Event.write (SendResponse.headerBuff m) :: bridge.connection.log⟩⟩))) := by
  have key : ∀ (buf : List Byte),
      (impl.write bridge.connection.st buf).1 = (buf.length, none) →
      (0 < m.BodyLength →
        (sendBuff impl buf m.BodyLength bodyWriterHandler bridge).1
          = (bodyWriterHandler (impl.write bridge.connection.st buf).2).1
        ∧ (sendBuff impl buf m.BodyLength bodyWriterHandler bridge).2.connection.st
          = (if (bodyWriterHandler (impl.write bridge.connection.st buf).2).1 = none
             then (bodyWriterHandler (impl.write bridge.connection.st buf).2).2
             else (impl.close (bodyWriterHandler (impl.write bridge.connection.st buf).2).2).2)
        ∧ (sendBuff impl buf m.BodyLength bodyWriterHandler bridge).2.connection.log
          = (if (bodyWriterHandler (impl.write bridge.connection.st buf).2).1 = none
             then [] else [Event.close])
            ++ Event.bodyWriter :: Event.write buf :: bridge.connection.log
        ∧ bodyWriterCalls (sendBuff impl buf m.BodyLength bodyWriterHandler bridge).2.connection.log
          = bodyWriterCalls bridge.connection.log + 1
        ∧ ∃ later : List Event,
            (sendBuff impl buf m.BodyLength bodyWriterHandler bridge).2.connection.log
              = later ++ Event.bodyWriter :: Event.write buf :: bridge.connection.log
            ∧ bodyWriterCalls later = 0)
      ∧ (m.BodyLength = 0 → ∀ w : BodyWriter σ,
          sendBuff impl buf m.BodyLength w bridge
            = (none, ⟨⟨(impl.write bridge.connection.st buf).2,
                       Event.write buf :: bridge.connection.log⟩⟩)) := by
    intro buf hw
    constructor
    · intro hpos
      cases hb : (bodyWriterHandler (impl.write bridge.connection.st buf).2).1 with
      | none =>
        rw [sendBuff_body_ok impl buf m.BodyLength bodyWriterHandler bridge hw hpos hb]
        refine ⟨rfl, by simp, by simp, ?_, [], rfl, rfl⟩
        simp [bodyWriterCalls, List.count_cons]
      | some e =>
        rw [sendBuff_body_err impl buf m.BodyLength bodyWriterHandler bridge e hw hpos hb]
        refine ⟨rfl, by simp, by simp, ?_, [Event.close], rfl, by decide⟩
        simp [bodyWriterCalls, List.count_cons]
    · intro hz w
      rw [hz]
      exact sendBuff_no_body impl buf w bridge hw
  exact ⟨key (SendRequest.headerBuff m), key (SendResponse.headerBuff m)⟩

/-- Witness for C13: a CONNECT envelope with a 3-byte body (the body bytes
end up on the connection, after the header) and one without body, sent over a
pipe. -/
theorem Send_body_writer_gating_witness :
    bodyWriterCalls (Bridge.SendRequest pipe (NewBridge ⟨Pipe.ofChunks [], []⟩)
        ⟨O_CONNECT, 1, 3, [123], none⟩ (writeBody pipe [7, 8, 9])).2.connection.log = 0 + 1
    ∧ (Bridge.SendRequest pipe (NewBridge ⟨Pipe.ofChunks [], []⟩)
        ⟨O_CONNECT, 1, 3, [123], none⟩ (writeBody pipe [7, 8, 9])).2.connection.st.outgoing
        = [1, 1, 0, 0, 0, 0, 0, 0, 0, 1, 0, 0, 0, 0, 0, 0, 0, 3, 123, 7, 8, 9]
    ∧ (∀ w : BodyWriter Pipe,
        Bridge.SendResponse pipe (NewBridge ⟨Pipe.ofChunks [], []⟩)
            ⟨O_RESPONSE, 0, 0, [], none⟩ w
          = (none, ⟨⟨(pipe.write (Pipe.ofChunks [])
                        (SendResponse.headerBuff ⟨O_RESPONSE, 0, 0, [], none⟩)).2,
                     [Event.write (SendResponse.headerBuff ⟨O_RESPONSE, 0, 0, [], none⟩)]⟩⟩)) :=
  ⟨(((Send_body_writer_gating pipe (NewBridge ⟨Pipe.ofChunks [], []⟩)
        ⟨O_CONNECT, 1, 3, [123], none⟩ (writeBody pipe [7, 8, 9])).1 rfl).1 (by decide)).2.2.2.1,
   (congrArg Pipe.outgoing
      (((Send_body_writer_gating pipe (NewBridge ⟨Pipe.ofChunks [], []⟩)
        ⟨O_CONNECT, 1, 3, [123], none⟩ (writeBody pipe [7, 8, 9])).1 rfl).1
          (by decide)).2.1).trans (by decide),
   ((Send_body_writer_gating pipe (NewBridge ⟨Pipe.ofChunks [], []⟩)
        ⟨O_RESPONSE, 0, 0, [], none⟩ (writeBody pipe [])).2 rfl).2 rfl⟩

/-- C14 (short header write is fatal): for every envelope, if the connection's
`Write` reports no error but a byte count different from the length of the
buffer it was given, `SendRequest` and `SendResponse` return
SEND_HEAD_BYTES_ERROR, their last call on the connection is `Close`, made right
after the `Write`, and the body writer is not run. -/
theorem Send_short_write_fatal {σ : Type} (impl : ConnImpl σ) (bridge : Bridge σ) (m : Meta)
    (bodyWriterHandler : BodyWriter σ) (k : Nat) :
    ((impl.write bridge.connection.st (SendRequest.headerBuff m)).1 = (k, none) →
      k ≠ (SendRequest.headerBuff m).length →
      Bridge.SendRequest impl bridge m bodyWriterHandler
        = (some GoError.SEND_HEAD_BYTES_ERROR,
           ⟨⟨(impl.close (impl.write bridge.connection.st (SendRequest.headerBuff m)).2).2,
             Event.close :: Event.write (SendRequest.headerBuff m) :: bridge.connection.log⟩⟩)
      ∧ bodyWriterCalls (Bridge.SendRequest impl bridge m bodyWriterHandler).2.connection.log
          = bodyWriterCalls bridge.connection.log)
    ∧ ((impl.write bridge.connection.st (SendResponse.headerBuff m)).1 = (k, none) →
      k ≠ (SendResponse.headerBuff m).length →
      Bridge.SendResponse impl bridge m bodyWriterHandler
        = (some GoError.SEND_HEAD_BYTES_ERROR,
           ⟨⟨(impl.close (impl.write bridge.connection.st (SendResponse.headerBuff m)).2).2,
             Event.close :: Event.write (SendResponse.headerBuff m) :: bridge.connection.log⟩⟩)
      ∧ bodyWriterCalls (Bridge.SendResponse impl bridge m bodyWriterHandler).2.connection.log
          = bodyWriterCalls bridge.connection.log) := by
  constructor
  · intro hw hk
    have h := sendBuff_short_write impl (SendRequest.headerBuff m) m.BodyLength
      bodyWriterHandler bridge k hw hk
    refine ⟨h, ?_⟩
    unfold Bridge.SendRequest
    rw [h]
    simp [bodyWriterCalls, List.count_cons]
  · intro hw hk
    have h := sendBuff_short_write impl (SendResponse.headerBuff m) m.BodyLength
      bodyWriterHandler bridge k hw hk
    refine ⟨h, ?_⟩
    unfold Bridge.SendResponse
    rw [h]
    simp [bodyWriterCalls, List.count_cons]

/-- Witness for C14: a connection whose `Write` takes one byte less than it is
given, without reporting an error. -/
theorem Send_short_write_fatal_witness :
    (Bridge.SendRequest
        (⟨fun s _ => (⟨0, [], some GoError.EOF⟩, s), fun s buf => ((buf.length - 1, none), s),
          fun s => (none, s)⟩ : ConnImpl Unit)
        (NewBridge ⟨(), []⟩) ⟨O_CONNECT, 1, 3, [123], none⟩ (fun s => (none, s))).1
      = some GoError.SEND_HEAD_BYTES_ERROR
    ∧ (Bridge.SendResponse
        (⟨fun s _ => (⟨0, [], some GoError.EOF⟩, s), fun s buf => ((buf.length - 1, none), s),
          fun s => (none, s)⟩ : ConnImpl Unit)
        (NewBridge ⟨(), []⟩) ⟨O_CONNECT, 1, 3, [123], none⟩ (fun s => (none, s))).1
      = some GoError.SEND_HEAD_BYTES_ERROR :=
  ⟨congrArg Prod.fst ((Send_short_write_fatal
      (⟨fun s _ => (⟨0, [], some GoError.EOF⟩, s), fun s buf => ((buf.length - 1, none), s),
        fun s => (none, s)⟩ : ConnImpl Unit)
      (NewBridge ⟨(), []⟩) ⟨O_CONNECT, 1, 3, [123], none⟩ (fun s => (none, s)) 18).1
      rfl (by decide)).1,
   congrArg Prod.fst ((Send_short_write_fatal
      (⟨fun s _ => (⟨0, [], some GoError.EOF⟩, s), fun s buf => ((buf.length - 1, none), s),
        fun s => (none, s)⟩ : ConnImpl Unit)
      (NewBridge ⟨(), []⟩) ⟨O_CONNECT, 1, 3, [123], none⟩ (fun s => (none, s)) 17).2
      rfl (by decide)).1⟩

/-- C15 (body-writer failure is propagated and fatal): for every envelope with
BodyLength > 0 whose header write succeeds in full, if the body writer returns
a non-nil error `e` then `SendRequest` and `SendResponse` return exactly `e`
and their last call on the connection is `Close`; if it returns nil they
return nil and make no `Close` call. -/
theorem Send_body_writer_failure {σ : Type} (impl : ConnImpl σ) (bridge : Bridge σ) (m : Meta)
    (bodyWriterHandler : BodyWriter σ) (hpos : 0 < m.BodyLength) :
    ((impl.write bridge.connection.st (SendRequest.headerBuff m)).1
        = ((SendRequest.headerBuff m).length, none) →
      (∀ e : GoError,
        (bodyWriterHandler (impl.write bridge.connection.st (SendRequest.headerBuff m)).2).1
          = some e →
        Bridge.SendRequest impl bridge m bodyWriterHandler
          = (some e,
             ⟨⟨(impl.close (bodyWriterHandler
                  (impl.write bridge.connection.st (SendRequest.headerBuff m)).2).2).2,
               Event.close :: Event.bodyWriter :: Event.write (SendRequest.headerBuff m)
                 :: bridge.connection.log⟩⟩))
      ∧ ((bodyWriterHandler (impl.write bridge.connection.st (SendRequest.headerBuff m)).2).1
          = none →
        (Bridge.SendRequest impl bridge m bodyWriterHandler).1 = none
        ∧ closeCalls (Bridge.SendRequest impl bridge m bodyWriterHandler).2.connection.log
            = closeCalls bridge.connection.log))
    ∧ ((impl.write bridge.connection.st (SendResponse.headerBuff m)).1
        = ((SendResponse.headerBuff m).length, none) →
      (∀ e : GoError,
        (bodyWriterHandler (impl.write bridge.connection.st (SendResponse.headerBuff m)).2).1
          = some e →
        Bridge.SendResponse impl bridge m bodyWriterHandler
          = (some e,
             ⟨⟨(impl.close (bodyWriterHandler
                  (impl.write bridge.connection.st (SendResponse.headerBuff m)).2).2).2,
               Event.close :: Event.bodyWriter :: Event.write (SendResponse.headerBuff m)
                 :: bridge.connection.log⟩⟩))
      ∧ ((bodyWriterHandler (impl.write bridge.connection.st (SendResponse.headerBuff m)).2).1
          = none →
        (Bridge.SendResponse impl bridge m bodyWriterHandler).1 = none
        ∧ closeCalls (Bridge.SendResponse impl bridge m bodyWriterHandler).2.connection.log
            = closeCalls bridge.connection.log)) := by
  constructor
  · intro hw
    refine ⟨fun e hb => sendBuff_body_err impl _ _ _ _ e hw hpos hb, fun hb => ?_⟩
    exact sendBuff_ok impl _ _ _ _ hw (fun _ => hb)
  · intro hw
    refine ⟨fun e hb => sendBuff_body_err impl _ _ _ _ e hw hpos hb, fun hb => ?_⟩
    exact sendBuff_ok impl _ _ _ _ hw (fun _ => hb)

/-- Witness for C15: over a pipe, a body writer that fails with an error of
its own, and one that writes the body. -/
theorem Send_body_writer_failure_witness :
    (Bridge.SendRequest pipe (NewBridge ⟨Pipe.ofChunks [], []⟩)
        ⟨O_CONNECT, 1, 3, [123], none⟩ (fun s => (some (GoError.other 7), s))).1
      = some (GoError.other 7)
    ∧ (Bridge.SendResponse pipe (NewBridge ⟨Pipe.ofChunks [], []⟩)
        ⟨O_RESPONSE, 1, 3, [123], none⟩ (writeBody pipe [7, 8, 9])).1 = none :=
  ⟨congrArg Prod.fst (((Send_body_writer_failure pipe (NewBridge ⟨Pipe.ofChunks [], []⟩)
      ⟨O_CONNECT, 1, 3, [123], none⟩ (fun s => (some (GoError.other 7), s)) (by decide)).1
      rfl).1 (GoError.other 7) rfl),
   (((Send_body_writer_failure pipe (NewBridge ⟨Pipe.ofChunks [], []⟩)
      ⟨O_RESPONSE, 1, 3, [123], none⟩ (writeBody pipe [7, 8, 9]) (by decide)).2
      rfl).2 rfl).1⟩

/-- C16, counterexample: on a connection whose own `Close` reports an error
once it is closed, `close` applied to the already closed handle returns that
error (the first `close` returned nil), and it has called `Close` again. -/
theorem close_closed_handle_fails :
    (close strictPipe (some ⟨Pipe.ofChunks [], []⟩)).1 = none
    ∧ (close strictPipe (close strictPipe (some ⟨Pipe.ofChunks [], []⟩)).2).1
        = some (GoError.other 1)
    ∧ ((close strictPipe (close strictPipe (some ⟨Pipe.ofChunks [], []⟩)).2).2.map
        (fun c => (c.st.closes, closeCalls c.log))) = some (2, 2) := by
  decide

/-- C16, amended: `close` applied to a nil handle returns nil and performs no
operation; applied to a non-nil handle, closed before or not, it calls the
handle's `Close` exactly once and returns what that call returns. -/
theorem close_spec {σ : Type} (impl : ConnImpl σ) :
    close impl none = (none, none)
    ∧ ∀ c : Conn σ,
        close impl (some c)
          = ((impl.close c.st).1, some ⟨(impl.close c.st).2, Event.close :: c.log⟩)
        ∧ closeCalls (Event.close :: c.log) = closeCalls c.log + 1 := by
  refine ⟨rfl, fun c => ⟨rfl, ?_⟩⟩
  simp [closeCalls, List.count_cons]

/-- C18 (frame reading is total), evaluation at the failing input: on a stream
that delivers the header `{1,2, 0xFF x 8, 0 x 8}` (declared metaLen
`2^64 - 1`) followed by three more bytes, `readHeadBytes` does not return a
tuple or an error: it panics. -/
theorem readHeadBytes_panics :
    (readHeadBytes pipe 30
        ⟨Pipe.ofChunks [Chunk.ok [1, 2, 255, 255, 255, 255, 255, 255, 255, 255,
            0, 0, 0, 0, 0, 0, 0, 0], Chunk.ok [123, 125, 7]], []⟩).1 = Exec.panic := by
  decide

/-- C19, counterexample: three bytes asked from a pipe that delivers `{1}` and
then `{2,3}` together with `io.EOF`: all three bytes arrive, and `ReadBytes`
returns `(0, READ_ERROR)` and has closed the connection. -/
theorem ReadBytes_final_bytes_with_EOF_fail :
    (ReadBytes pipe 5 [0, 0, 0] 3
        ⟨Pipe.ofChunks [Chunk.ok [1], ⟨[2, 3], some GoError.EOF⟩], []⟩).1
      = Exec.ret (0, some GoError.READ_ERROR)
    ∧ (ReadBytes pipe 5 [0, 0, 0] 3
        ⟨Pipe.ofChunks [Chunk.ok [1], ⟨[2, 3], some GoError.EOF⟩], []⟩).2.2.st.closes = 1
    ∧ (ReadBytes pipe 5 [0, 0, 0] 3
        ⟨Pipe.ofChunks [Chunk.ok [1], ⟨[2, 3], some GoError.EOF⟩], []⟩).2.2.log
      = [Event.close, Event.read 2 2 (some GoError.EOF), Event.read 3 1 none] := by
  decide

/-- C19, amended: in a call for `n` bytes with `read < n` of them accumulated,
a read that returns a byte count between 1 and the `n - read` bytes still
missing and does not report `io.EOF` is added to the accumulated total and
the loop goes on from `read + l`; a read that reports `io.EOF` ends the call
with `(0, READ_ERROR)` and a `Close`, whatever it delivered. -/
theorem ReadBytes_partial_read {σ : Type} (impl : ConnImpl σ) (n read fuel : Nat)
    (buff : List Byte) (conn : Conn σ) (hlt : read < n) (hb : n ≤ buff.length)
    (hl1 : 1 ≤ (impl.read conn.st (n - read)).1.n)
    (hl2 : (impl.read conn.st (n - read)).1.n ≤ n - read) :
    ((impl.read conn.st (n - read)).1.err ≠ some GoError.EOF →
      ReadBytes.loop impl (n : Int) (fuel + 1) read buff conn
        = ReadBytes.loop impl (n : Int) fuel (read + (impl.read conn.st (n - read)).1.n)
            (store buff read n (impl.read conn.st (n - read)).1.data)
            (Conn.Read impl conn (n - read)).2)
    ∧ ((impl.read conn.st (n - read)).1.err = some GoError.EOF →
      ReadBytes.loop impl (n : Int) (fuel + 1) read buff conn
        = (Exec.ret (0, some GoError.READ_ERROR),
           store buff read n (impl.read conn.st (n - read)).1.data,
           ⟨(impl.close (impl.read conn.st (n - read)).2).2,
            Event.close :: Event.read (n - read) (impl.read conn.st (n - read)).1.n
              (impl.read conn.st (n - read)).1.err :: conn.log⟩)) := by
  constructor
  · intro he
    rw [ReadBytes.loop, ReadBytes.body_next impl n read buff conn hlt hb (by omega) he (by omega)]
  · intro he
    rw [ReadBytes.loop, ReadBytes.body_fail impl n read buff conn hlt hb (Or.inr he)]
    simp only [closeLive_eq, Conn.Read_st, Conn.Read_log]

/-- Witness for C19 (amended): from one accumulated byte of three, a pipe read
delivering one more byte, and a pipe read delivering the last two with
`io.EOF`. -/
theorem ReadBytes_partial_read_witness :
    ReadBytes.loop pipe ((3 : Nat) : Int) (4 + 1) 1 [1, 0, 0]
        ⟨Pipe.ofChunks [Chunk.ok [2], Chunk.ok [3]], []⟩
      = ReadBytes.loop pipe ((3 : Nat) : Int) 4
          (1 + (pipe.read (Pipe.ofChunks [Chunk.ok [2], Chunk.ok [3]]) (3 - 1)).1.n)
          (store [1, 0, 0] 1 3 (pipe.read (Pipe.ofChunks [Chunk.ok [2], Chunk.ok [3]]) (3 - 1)).1.data)
          (Conn.Read pipe ⟨Pipe.ofChunks [Chunk.ok [2], Chunk.ok [3]], []⟩ (3 - 1)).2
    ∧ (ReadBytes.loop pipe ((3 : Nat) : Int) (4 + 1) 1 [1, 0, 0]
        ⟨Pipe.ofChunks [⟨[2, 3], some GoError.EOF⟩], []⟩).1
      = Exec.ret (0, some GoError.READ_ERROR) :=
  ⟨(ReadBytes_partial_read pipe 3 1 4 [1, 0, 0] ⟨Pipe.ofChunks [Chunk.ok [2], Chunk.ok [3]], []⟩
      (by decide) (by decide) (by decide) (by decide)).1 (by decide),
   congrArg Prod.fst ((ReadBytes_partial_read pipe 3 1 4 [1, 0, 0]
      ⟨Pipe.ofChunks [⟨[2, 3], some GoError.EOF⟩], []⟩
      (by decide) (by decide) (by decide) (by decide)).2 (by decide))⟩

/-- Unknown tags when the metadata buffer can be made: on a pipe that delivers
a complete frame head whose declared metadata length is below `2^63` (and, in
the code, within what `make` can allocate) and whose 2-byte tag is neither
`{1,1}` nor `{1,2}`, `readHeadBytes` succeeds with operation 0,
`ReceiveRequest` and `ReceiveResponse` run the handler on an envelope whose
Operation is 0 and whose BodyLength and MetaBody are those of the frame, and
the engine makes no `Close` call. -/
theorem unknown_tag_sentinel (p : Pipe) (log : List Event) (fuel : Nat) (handler : Handler Pipe)
    (htag1 : slice (p.content.take 18) 0 2 ≠ [1, 1])
    (htag2 : slice (p.content.take 18) 0 2 ≠ [1, 2])
    (hml : uint64 (slice (p.content.take 18) 2 10) < 2 ^ 63)
    (hd : Delivers p.incoming (18 + uint64 (slice (p.content.take 18) 2 10)))
    (hf : 18 + uint64 (slice (p.content.take 18) 2 10) < fuel) :
    ∃ (p2 : Pipe) (new : List Event),
      readHeadBytes pipe fuel ⟨p, log⟩
        = (Exec.ret ⟨0, uint64 (slice (p.content.take 18) 2 10),
              uint64 (slice (p.content.take 18) 10 18),
              (p.content.drop 18).take (uint64 (slice (p.content.take 18) 2 10)), none⟩,
           ⟨p2, new ++ log⟩)
      ∧ (∃ m : Meta,
          Bridge.ReceiveRequest pipe fuel ⟨⟨p, log⟩⟩ handler
            = (Exec.ret (handler m p2).1,
               ⟨⟨(handler m p2).2, Event.handler m :: (new ++ log)⟩⟩)
          ∧ m.Operation = 0
          ∧ m.BodyLength = uint64 (slice (p.content.take 18) 10 18)
          ∧ m.MetaBody = (p.content.drop 18).take (uint64 (slice (p.content.take 18) 2 10)))
      ∧ (∃ m : Meta,
          Bridge.ReceiveResponse pipe fuel ⟨⟨p, log⟩⟩ handler
            = (Exec.ret (handler m p2).1,
               ⟨⟨(handler m p2).2, Event.handler m :: (new ++ log)⟩⟩)
          ∧ m.Operation = 0
          ∧ m.BodyLength = uint64 (slice (p.content.take 18) 10 18)
          ∧ m.MetaBody = (p.content.drop 18).take (uint64 (slice (p.content.take 18) 2 10)))
      ∧ p2.closes = p.closes
      ∧ closeCalls (new ++ log) = closeCalls log := by
  obtain ⟨p2, new, heq, _, _, hcl, _, hr⟩ :=
    readHeadBytes_pipe p log fuel 0 hml (by simpa using hd) hf
  have hop : retrieveOperation (slice (p.content.take 18) 0 2) = 0 := by
    have := retrieveOperationIn_perm operationHeadEntries (List.Perm.refl _)
      (slice (p.content.take 18) 0 2)
    simpa [retrieveOperation, htag1, htag2] using this
  rw [hop] at heq
  refine ⟨p2, new, heq,
    ⟨⟨0, 0, uint64 (slice (p.content.take 18) 10 18),
        (p.content.drop 18).take (uint64 (slice (p.content.take 18) 2 10)), none⟩,
      ?_, rfl, rfl, rfl⟩,
    ⟨⟨0, uint64 (slice (p.content.take 18) 2 10), uint64 (slice (p.content.take 18) 10 18),
        (p.content.drop 18).take (uint64 (slice (p.content.take 18) 2 10)), none⟩,
      ?_, rfl, rfl, rfl⟩,
    hcl, closeCalls_reads new log hr⟩
  · simp [Bridge.ReceiveRequest, heq, callHandler]
  · simp [Bridge.ReceiveResponse, heq, callHandler]

/-- An instance of the previous lemma: a frame with tag `{9,9}`, one metadata
byte and a declared body of two bytes, delivered in two chunks. -/
theorem unknown_tag_sentinel_witness :
    (readHeadBytes pipe 25
        ⟨Pipe.ofChunks [Chunk.ok [9, 9, 0, 0, 0, 0, 0, 0, 0, 1, 0, 0, 0],
          Chunk.ok [0, 0, 0, 0, 2, 123, 7, 8]], []⟩).1
      = Exec.ret ⟨0, 1, 2, [123], none⟩ := by
  obtain ⟨p2, new, heq, _⟩ := unknown_tag_sentinel
    (Pipe.ofChunks [Chunk.ok [9, 9, 0, 0, 0, 0, 0, 0, 0, 1, 0, 0, 0],
      Chunk.ok [0, 0, 0, 0, 2, 123, 7, 8]]) [] 25 (fun _ s => (none, s))
    (by decide) (by decide) (by decide)
    (by simp [Delivers, Pipe.ofChunks, Chunk.ok, Pipe.content, slice, uint64])
    (by decide)
  rw [heq]
  show Exec.ret (_ : Head) = _
  decide

/-- C20 (under-consumption desynchronizes the next frame): there are two
well-formed frames, sent back to back with `SendRequest`, the first with
BodyLength 18, such that when the handler of the first returns after
consuming none of its body the next `readHeadBytes` on the stream returns a
tuple that is not the second frame's (it parses the unread body as a header),
while after a handler that consumes exactly BodyLength bytes it returns the
second frame's tuple. -/
theorem underconsumption_desynchronizes :
    ∃ (f1 f2 : Meta × List Byte) (k : Nat),
      validFrame f1 ∧ validFrame f2 ∧ 0 < f1.1.BodyLength ∧ k < f1.1.BodyLength
      ∧ (sendFrames [f1, f2] ⟨⟨Pipe.ofChunks [], []⟩⟩).1 = none
      ∧ (readHeadBytes pipe 40
          (Bridge.ReceiveRequest pipe 40
            ⟨⟨Pipe.ofChunks [Chunk.ok
                (sendFrames [f1, f2] ⟨⟨Pipe.ofChunks [], []⟩⟩).2.connection.st.outgoing], []⟩⟩
            (echoHandler 40 (fun _ => k))).2.connection).1
          ≠ Exec.ret ⟨f2.1.Operation, f2.1.metaLength, f2.1.BodyLength, f2.1.MetaBody, none⟩
      ∧ (readHeadBytes pipe 40
          (Bridge.ReceiveRequest pipe 40
            ⟨⟨Pipe.ofChunks [Chunk.ok
                (sendFrames [f1, f2] ⟨⟨Pipe.ofChunks [], []⟩⟩).2.connection.st.outgoing], []⟩⟩
            (echoHandler 40 Meta.BodyLength)).2.connection).1
          = Exec.ret ⟨f2.1.Operation, f2.1.metaLength, f2.1.BodyLength, f2.1.MetaBody, none⟩ := by
  refine ⟨(⟨O_CONNECT, 0, 18, [], none⟩,
      [1, 2, 0, 0, 0, 0, 0, 0, 0, 0, 0, 0, 0, 0, 0, 0, 0, 0]),
    (⟨O_CONNECT, 1, 0, [123], none⟩, []), 0, ?_, ?_, by decide, by decide, by decide,
    by decide, by decide⟩
  · refine ⟨Or.inl rfl, rfl, ?_, rfl, ?_⟩ <;> norm_num
  · refine ⟨Or.inl rfl, rfl, ?_, rfl, ?_⟩ <;> norm_num

/-- C17 (sequential framing is FIFO): for every sequence of well-formed
frames sent back to back with `SendRequest` (registered operations, body
writers writing exactly BodyLength bytes) and delivered to the peer in any
chunking of non-empty, error-free chunks: the sends return nil; on the first
frame `readHeadBytes` returns the frame's tuple having consumed exactly
`18 + metaLen` bytes, which leaves the stream at the first body byte; and
successive `ReceiveRequest` calls whose handler consumes exactly BodyLength
bytes hand over the envelopes (Operation, BodyLength, MetaBody) in the order
sent and the bodies in the order sent, use the stream up and close nothing. -/
theorem sequential_framing_FIFO (fs : List (Meta × List Byte)) (ps : Pipe)
    (logs : List Event) (cs : List Chunk) (pr : Pipe) (logr : List Event) (fuel : Nat)
    (hvalid : ∀ f ∈ fs, validFrame f)
    (hfuel : ∀ f ∈ fs, 18 + f.1.MetaBody.length < fuel ∧ f.2.length < fuel)
    (hok : ∀ c ∈ cs, c.bytes ≠ [] ∧ c.err = none)
    (hwire : (sendFrames fs ⟨⟨ps, logs⟩⟩).2.connection.st.outgoing
      = ps.outgoing ++ (cs.map Chunk.bytes).flatten)
    (hin : pr.incoming = cs) :
    (sendFrames fs ⟨⟨ps, logs⟩⟩).1 = none
    ∧ (∀ (f : Meta × List Byte) (rest : List (Meta × List Byte)), fs = f :: rest →
        ∃ (p2 : Pipe) (new : List Event),
          readHeadBytes pipe fuel ⟨pr, logr⟩
            = (Exec.ret ⟨f.1.Operation, f.1.metaLength, f.1.BodyLength, f.1.MetaBody, none⟩,
               ⟨p2, new ++ logr⟩)
          ∧ p2.content = pr.content.drop (18 + f.1.metaLength)
          ∧ p2.content = f.2 ++ (rest.map frameBytes).flatten)
    ∧ (handlerCalls (serve fuel fs.length ⟨⟨pr, logr⟩⟩).connection.log).map envelopeOf
        = (fs.map (fun f => envelopeOf f.1)).reverse ++ (handlerCalls logr).map envelopeOf
    ∧ (serve fuel fs.length ⟨⟨pr, logr⟩⟩).connection.st.outgoing
        = pr.outgoing ++ (fs.map Prod.snd).flatten
    ∧ (serve fuel fs.length ⟨⟨pr, logr⟩⟩).connection.st.content = []
    ∧ (serve fuel fs.length ⟨⟨pr, logr⟩⟩).connection.st.closes = pr.closes
    ∧ closeCalls (serve fuel fs.length ⟨⟨pr, logr⟩⟩).connection.log = closeCalls logr := by
  have hsend := sendFrames_pipe fs ps logs (fun f hf => (hvalid f hf).2.2.2.1)
  have hcontent : pr.content = (fs.map frameBytes).flatten := by
    have h1 := hsend.2
    rw [hwire] at h1
    have h2 := List.append_cancel_left h1
    simp only [Pipe.content, hin, h2]
  have hdel : Delivers pr.incoming ((fs.map frameBytes).flatten).length := by
    rw [hin]
    apply Delivers_of_all_ok cs _ hok
    have : ((cs.map Chunk.bytes).flatten) = pr.content := by simp [Pipe.content, hin]
    rw [this, hcontent]
  refine ⟨hsend.1, ?_, serve_pipe fuel fs pr logr hvalid hfuel hcontent hdel⟩
  intro f rest hfs
  subst hfs
  have hv := hvalid f (by simp)
  refine readHeadBytes_frame f ((rest.map frameBytes).flatten) pr logr fuel hv
    (by rw [hcontent]; simp) ?_ (hfuel f (by simp)).1
  apply Delivers_mono _ _ _ _ hdel
  simp only [List.map_cons, List.flatten_cons, List.length_append, frameBytes,
    SendRequest_headerBuff_length f.1 hv.1, hv.2.1]
  omega

/-- Witness for C17: a CONNECT request with metadata `{}` and body `{7,8,9}`
followed by a RESPONSE request with no metadata and body `{5}`, delivered in
chunks that cut across the frames. -/
theorem sequential_framing_FIFO_witness :
    (handlerCalls (serve 25 2
        ⟨⟨Pipe.ofChunks [Chunk.ok [1, 1, 0, 0, 0, 0, 0, 0, 0, 2, 0, 0, 0, 0, 0, 0, 0, 3, 123],
            Chunk.ok [125, 7, 8, 9, 1, 2, 0, 0, 0, 0, 0, 0, 0, 0, 0, 0],
            Chunk.ok [0, 0, 0, 0, 0, 1, 5]], []⟩⟩).connection.log).map envelopeOf
      = [(O_RESPONSE, 1, []), (O_CONNECT, 3, [123, 125])]
    ∧ (serve 25 2
        ⟨⟨Pipe.ofChunks [Chunk.ok [1, 1, 0, 0, 0, 0, 0, 0, 0, 2, 0, 0, 0, 0, 0, 0, 0, 3, 123],
            Chunk.ok [125, 7, 8, 9, 1, 2, 0, 0, 0, 0, 0, 0, 0, 0, 0, 0],
            Chunk.ok [0, 0, 0, 0, 0, 1, 5]], []⟩⟩).connection.st.outgoing
      = [7, 8, 9, 5] := by
  have h := sequential_framing_FIFO
    [(⟨O_CONNECT, 2, 3, [123, 125], none⟩, [7, 8, 9]), (⟨O_RESPONSE, 0, 1, [], none⟩, [5])]
    (Pipe.ofChunks []) []
    [Chunk.ok [1, 1, 0, 0, 0, 0, 0, 0, 0, 2, 0, 0, 0, 0, 0, 0, 0, 3, 123],
      Chunk.ok [125, 7, 8, 9, 1, 2, 0, 0, 0, 0, 0, 0, 0, 0, 0, 0],
      Chunk.ok [0, 0, 0, 0, 0, 1, 5]]
    (Pipe.ofChunks [Chunk.ok [1, 1, 0, 0, 0, 0, 0, 0, 0, 2, 0, 0, 0, 0, 0, 0, 0, 3, 123],
      Chunk.ok [125, 7, 8, 9, 1, 2, 0, 0, 0, 0, 0, 0, 0, 0, 0, 0],
      Chunk.ok [0, 0, 0, 0, 0, 1, 5]])
    [] 25
    (by
      intro f hf
      simp only [List.mem_cons, List.mem_singleton, List.not_mem_nil, or_false] at hf
      rcases hf with rfl | rfl
      · refine ⟨Or.inl rfl, rfl, ?_, rfl, ?_⟩ <;> norm_num
      · refine ⟨Or.inr rfl, rfl, ?_, rfl, ?_⟩ <;> norm_num)
    (by
      intro f hf
      simp only [List.mem_cons, List.mem_singleton, List.not_mem_nil, or_false] at hf
      rcases hf with rfl | rfl <;> decide)
    (by simp [Chunk.ok]) (by decide) rfl
  exact ⟨h.2.2.1, h.2.2.2.1⟩

/-- C11 (unknown tag is a sentinel, not a failure), evaluation at a failing
input: the stream delivers the header `{9,9, 0x80,0,0,0,0,0,0,0, 0 x 8}` (tag
`{9,9}`, registered nowhere; declared metaLen `2^63`) and then the `2^63`
declared metadata bytes, so the complete frame head is there and deliverable.
`readHeadBytes` does not succeed and no handler is run: it panics after the
header (in `make`, on the negative `int` the length converts to), and so do
`ReceiveRequest` and `ReceiveResponse`. -/
theorem unknown_tag_huge_metaLen_panics :
    retrieveOperation [9, 9] = 0
    ∧ uint64 (slice ((Pipe.ofChunks
          [Chunk.ok [9, 9, 128, 0, 0, 0, 0, 0, 0, 0, 0, 0, 0, 0, 0, 0, 0, 0],
            Chunk.ok (List.replicate (2 ^ 63) 0)]).content.take 18) 2 10) = 2 ^ 63
    ∧ Delivers (Pipe.ofChunks
          [Chunk.ok [9, 9, 128, 0, 0, 0, 0, 0, 0, 0, 0, 0, 0, 0, 0, 0, 0, 0],
            Chunk.ok (List.replicate (2 ^ 63) 0)]).incoming (18 + 2 ^ 63)
    ∧ (readHeadBytes pipe 30
        ⟨Pipe.ofChunks [Chunk.ok [9, 9, 128, 0, 0, 0, 0, 0, 0, 0, 0, 0, 0, 0, 0, 0, 0, 0],
          Chunk.ok (List.replicate (2 ^ 63) 0)], []⟩).1 = Exec.panic
    ∧ (Bridge.ReceiveRequest pipe 30
        ⟨⟨Pipe.ofChunks [Chunk.ok [9, 9, 128, 0, 0, 0, 0, 0, 0, 0, 0, 0, 0, 0, 0, 0, 0, 0],
          Chunk.ok (List.replicate (2 ^ 63) 0)], []⟩⟩ (fun _ s => (none, s))).1 = Exec.panic
    ∧ handlerCalls (Bridge.ReceiveRequest pipe 30
        ⟨⟨Pipe.ofChunks [Chunk.ok [9, 9, 128, 0, 0, 0, 0, 0, 0, 0, 0, 0, 0, 0, 0, 0, 0, 0],
          Chunk.ok (List.replicate (2 ^ 63) 0)], []⟩⟩
        (fun _ s => (none, s))).2.connection.log = []
    ∧ (Bridge.ReceiveResponse pipe 30
        ⟨⟨Pipe.ofChunks [Chunk.ok [9, 9, 128, 0, 0, 0, 0, 0, 0, 0, 0, 0, 0, 0, 0, 0, 0, 0],
          Chunk.ok (List.replicate (2 ^ 63) 0)], []⟩⟩ (fun _ s => (none, s))).1 = Exec.panic
    ∧ handlerCalls (Bridge.ReceiveResponse pipe 30
        ⟨⟨Pipe.ofChunks [Chunk.ok [9, 9, 128, 0, 0, 0, 0, 0, 0, 0, 0, 0, 0, 0, 0, 0, 0, 0],
          Chunk.ok (List.replicate (2 ^ 63) 0)], []⟩⟩
        (fun _ s => (none, s))).2.connection.log = [] := by
  have ht : List.replicate (2 ^ 63) (0 : Byte) ≠ [] := by
    intro h
    have hl := congrArg List.length h
    rw [List.length_replicate, List.length_nil] at hl
    exact absurd hl (by norm_num)
  obtain ⟨h1, _, h3⟩ := header_then_tail
    [9, 9, 128, 0, 0, 0, 0, 0, 0, 0, 0, 0, 0, 0, 0, 0, 0, 0] (List.replicate (2 ^ 63) 0) rfl ht
  have hml : uint64 (slice ((Pipe.ofChunks
      [Chunk.ok [9, 9, 128, 0, 0, 0, 0, 0, 0, 0, 0, 0, 0, 0, 0, 0, 0, 0],
        Chunk.ok (List.replicate (2 ^ 63) 0)]).content.take 18) 2 10) = 2 ^ 63 := by
    rw [h1]; decide
  obtain ⟨p1, new, e1, e2, e3, _, hr⟩ := Receive_pipe_huge
    (Pipe.ofChunks [Chunk.ok [9, 9, 128, 0, 0, 0, 0, 0, 0, 0, 0, 0, 0, 0, 0, 0, 0, 0],
      Chunk.ok (List.replicate (2 ^ 63) 0)]) [] 30 (fun _ s => (none, s))
    (h3 18 (by omega)) (by rw [hml]) (by decide)
  have hh : handlerCalls (new ++ []) = [] := handlerCalls_reads new [] hr
  refine ⟨by decide, hml, h3 _ (by rw [List.length_replicate]), ?_, ?_, ?_, ?_, ?_⟩
  · rw [e1]
  · rw [e2]
  · rw [e2]; exact hh
  · rw [e3]
  · rw [e3]; exact hh

end Godfs
